import Mathlib

/-!
Verification of the suggestion-resolution pipeline of `phab-comments-to-md`
(`src/main.rs`) against its natural-language specification.

The Rust code is shallowly embedded: strings are lists of characters,
stateful interaction with the outside world (environment variables, the
browser cookie store, HTTP responses) is made explicit by passing oracles or
world records, and the external libraries the code calls (`regex`,
`serde_json`, `scraper`) are modelled by executable Lean functions whose
behaviour on the inputs exercised here matches the libraries' documented
semantics.  Each model is documented at its definition.
-/

namespace PhabMd

/-- Strings of the Rust source are modelled as lists of characters.  All the
inputs exercised below are ASCII, where Rust's byte indices and character
indices coincide. -/
abbrev Str := List Char

/-- Models Rust `str::contains(sub)`: `sub` occurs as a contiguous substring. -/
def containsSub : Str → Str → Bool
  | [], sub => sub.isEmpty
  | hay@(_ :: t), sub => sub.isPrefixOf hay || containsSub t sub

/-- Models Rust `str::find(sub)`: index of the first occurrence of `sub`. -/
def findSubIdx : Str → Str → Option Nat
  | [], sub => if sub.isEmpty then some 0 else none
  | hay@(_ :: t), sub =>
    if sub.isPrefixOf hay then some 0 else (findSubIdx t sub).map (· + 1)

/-- First `some` of a list of options (first-success fallback chaining). -/
def firstSome {α : Type} : List (Option α) → Option α
  | [] => none
  | some a :: _ => some a
  | none :: rest => firstSome rest

/-- Maximal leading run of decimal digits. -/
def takeDigits (s : Str) : Str := s.takeWhile Char.isDigit

/-- Models Rust `str::trim` (whitespace stripped from both ends). -/
def strTrim (s : Str) : Str :=
  ((s.dropWhile Char.isWhitespace).reverse.dropWhile Char.isWhitespace).reverse

/-- The newline separator used when joining diff lines. -/
def nlSep : Str := ['\n']

section ScoredSelection

/-! ### Changeset Fetcher: scored candidate selection
Embeds the response-scoring loop of `fetch_changeset_with_refs`
(`src/main.rs` lines 693-753).  Each element of the input list is the body of
one changeset response (`none` models a failed request, which the loop skips
with `continue`). -/

def sugMarker : Str := "suggestionText".toList

def inlineViewMarker : Str := "inline-suggestion-view".toList

def inlineCommentMarker : Str := "differential-inline-comment".toList

/-- Scoring of one response body, from `fetch_changeset_with_refs`:
+100 for the suggestion-text marker, +10 for the inline-suggestion-view
marker, +1 for the generic inline-comment marker. -/
def scoreBody (b : Str) : Nat :=
  (if containsSub b sugMarker then 100 else 0) +
  (if containsSub b inlineViewMarker then 10 else 0) +
  (if containsSub b inlineCommentMarker then 1 else 0)

/-- One iteration of the selection loop: the state is
`(best_response, best_score)`, updated only on a strictly greater score. -/
def selectStep (st : Option Str × Nat) (resp : Option Str) : Option Str × Nat :=
  match resp with
  | none => st
  | some text => if st.2 < scoreBody text then (some text, scoreBody text) else st

/-- The selection loop of `fetch_changeset_with_refs`, starting from
`best_response = None`, `best_score = 0`. -/
def fetch_changeset_with_refs (responses : List (Option Str)) : Option Str :=
  (responses.foldl selectStep (none, 0)).1

end ScoredSelection

section RefDiscovery

/-! ### Reference Discoverer
Embeds `extract_ref_parameters_from_page` (`src/main.rs` lines 549-649).
Each regex of the source is modelled by an executable scanner over the page
text; a scanner returns the list of captured groups of all matches, left to
right.  The scanners advance one character at a time; as argued at each
definition, for these patterns no two matches can overlap, so this yields the
same match list as the regex crate's non-overlapping `captures_iter` /
`find_iter`. -/

/-- A word character for the regex `\b` boundary (ASCII fragment; the inputs
treated here are ASCII). -/
def wordChar (c : Char) : Bool := c.isAlphanum || c = '_'

/-- The single-quote character, named to keep string processing readable. -/
def sq : Char := Char.ofNat 39

/-- Capture of `ref=(\d+)` anchored at the head of the string: the digit run
following a literal `ref=`, when non-empty.  A match consists of `ref=` and
digits only, and `ref=` cannot begin inside another match, so matches never
overlap. -/
def refCapture : Str → List Str
  | 'r' :: 'e' :: 'f' :: '=' :: r2 =>
    let ds := takeDigits r2
    if ds.isEmpty then [] else [ds]
  | _ => []

/-- Models `captures_iter` of `ref=(\d+)` (pattern 1 of the cascade). -/
def p1Scan : Str → List Str
  | [] => []
  | s@(_ :: t) => refCapture s ++ p1Scan t

/-- Models `captures_iter` of the quoted-JSON pattern
`"ref":"(\d+)"` (first pattern of the pooled group). -/
def p2aScan : Str → List Str
  | [] => []
  | s@(_ :: t) =>
    (match s with
     | '"' :: 'r' :: 'e' :: 'f' :: '"' :: ':' :: '"' :: r2 =>
       let ds := takeDigits r2
       if ds.isEmpty then []
       else
         match r2.drop ds.length with
         | '"' :: _ => [ds]
         | _ => []
     | _ => []) ++ p2aScan t

/-- Shared tail of the single-quoted patterns: `\s*'(\d+)'` — greedy
whitespace, an opening single quote, a digit run, a closing single quote. -/
def quotedDigits (r2 : Str) : List Str :=
  match r2.dropWhile Char.isWhitespace with
  | c :: r3 =>
    if c = sq then
      let ds := takeDigits r3
      if ds.isEmpty then []
      else
        match r3.drop ds.length with
        | c2 :: _ => if c2 = sq then [ds] else []
        | [] => []
    else []
  | [] => []

/-- Models `captures_iter` of the JS object-literal pattern
`'ref':\s*'(\d+)'` (second pattern of the pooled group). -/
def p2bScan : Str → List Str
  | [] => []
  | c :: t =>
    (if c = sq then
       match t with
       | 'r' :: 'e' :: 'f' :: c2 :: ':' :: r2 =>
         if c2 = sq then quotedDigits r2 else []
       | _ => []
     else []) ++ p2bScan t

/-- Models `captures_iter` of `ref:\s*'(\d+)'` (third pattern of the pooled
group). -/
def p2cScan : Str → List Str
  | [] => []
  | s@(_ :: t) =>
    (match s with
     | 'r' :: 'e' :: 'f' :: ':' :: r2 => quotedDigits r2
     | _ => []) ++ p2cScan t

/-- Models `captures_iter` of `ref:\s*(\d+)` (fourth pattern of the pooled
group). -/
def p2dScan : Str → List Str
  | [] => []
  | s@(_ :: t) =>
    (match s with
     | 'r' :: 'e' :: 'f' :: ':' :: r2 =>
       let ds := takeDigits (r2.dropWhile Char.isWhitespace)
       if ds.isEmpty then [] else [ds]
     | _ => []) ++ p2dScan t

/-- Models `find_iter`-style capture of `\bC(\d{7,8})[ON]L\d+` (fifth pattern
of the pooled group).  The Boolean argument records whether the previous
character is a word character (for the `\b` boundary).  The greedy `\d{7,8}`
followed by `[ON]` matches exactly when the maximal digit run after `C` has
length 7 or 8 and is followed by `O` or `N`, `L`, and a digit. -/
def p2eAux : Bool → Str → List Str
  | _, [] => []
  | prevWord, c :: rest =>
    (if c = 'C' && !prevWord then
       let ds := takeDigits rest
       if ds.length = 7 || ds.length = 8 then
         match rest.drop ds.length with
         | x :: 'L' :: y :: _ =>
           if (x = 'O' || x = 'N') && y.isDigit then [ds] else []
         | _ => []
       else []
     else []) ++ p2eAux (wordChar c) rest

def p2eScan (s : Str) : List Str := p2eAux false s

/-- Models `find_iter` of `\b\d{7,8}\b` (pattern 3 of the cascade): a maximal
digit run of length 7 or 8 flanked by non-word characters or the ends of the
text.  `run` accumulates the current digit run and `prevWord` records whether
the character before that run is a word character; positions inside a longer
run can never satisfy the boundary, which the accumulation reflects. -/
def p3Run (run : Str) (prevWord : Bool) : Str → List Str
  | [] => if !prevWord && (run.length = 7 || run.length = 8) then [run] else []
  | c :: rest =>
    if c.isDigit then p3Run (run ++ [c]) prevWord rest
    else
      (if !prevWord && (run.length = 7 || run.length = 8) && !wordChar c then
        [run]
      else []) ++ p3Run [] (wordChar c) rest

def p3Scan (s : Str) : List Str := p3Run [] false s

/-- Models the `[^&]*ref=(\d+)` tail of pattern 4: within the span before the
first `&`, capture digits following a literal `ref=`.  (The regex crate's
greedy star would select the last such occurrence; this model selects the
first.  The two agree on whether any match exists, which is all the cascade
result can depend on: as proved below, pattern 4 can never match at all when
pattern 1 found nothing.) -/
def findRefInSpan : Str → Option Str
  | [] => none
  | s@(c :: t) =>
    if c = '&' then none
    else
      match refCapture s with
      | [ds] => some ds
      | _ => findRefInSpan t

/-- Match of `differential/changeset/[^?]*\?[^&]*ref=(\d+)` anchored at the
head: the literal prefix, everything up to the first `?` (which `[^?]*\?`
matches deterministically), then a `ref=` digit run before the next `&`. -/
def p4At (s : Str) : Option Str :=
  if "differential/changeset/".toList.isPrefixOf s then
    match (s.drop 23).dropWhile (· ≠ '?') with
    | _ :: afterQ => findRefInSpan afterQ
    | [] => none
  else none

/-- Models `captures_iter` of the URL-path pattern (pattern 4 of the
cascade). -/
def p4Scan : Str → List Str
  | [] => []
  | s@(_ :: t) => (p4At s).toList ++ p4Scan t

/-- The push-with-dedup loop of the source:
`if !refs.contains(&ref_value) { refs.push(ref_value) }`. -/
def pushRefs (acc : List Str) : List Str → List Str
  | [] => acc
  | x :: xs => if acc.contains x then pushRefs acc xs else pushRefs (acc ++ [x]) xs

/-- The push loop used for the pooled group, whose condition is
`!refs.contains(&ref_value) && ref_value.len() >= 7`. -/
def pushRefs7 (acc : List Str) : List Str → List Str
  | [] => acc
  | x :: xs =>
    if !acc.contains x && 7 ≤ x.length then pushRefs7 (acc ++ [x]) xs
    else pushRefs7 acc xs

/-- `extract_ref_parameters_from_page` (lines 549-649), on the fetched page
text: pattern 1 with dedup; if it yielded nothing, the pooled group of five
patterns (with the length-7 filter), then — only if still empty — the bare
7-8 digit scan, and finally, unconditionally within this branch, the
URL-path pattern. -/
def extract_ref_parameters_from_page (html : Str) : List Str :=
  let r1 := pushRefs [] (p1Scan html)
  if r1.isEmpty then
    let r2 := pushRefs7 (pushRefs7 (pushRefs7 (pushRefs7 (pushRefs7 r1
      (p2aScan html)) (p2bScan html)) (p2cScan html)) (p2dScan html)) (p2eScan html)
    let r3 := if r2.isEmpty then pushRefs r2 (p3Scan html) else r2
    pushRefs r3 (p4Scan html)
  else r1

/-- Deduplication keeping the first occurrence of each value. -/
def dedupFirst (l : List Str) : List Str := pushRefs [] l

/-- The pooled group of five alternate encodings, with the length filter. -/
def groupScan (html : Str) : List Str :=
  (p2aScan html ++ p2bScan html ++ p2cScan html ++ p2dScan html ++ p2eScan html).filter
    (fun x => 7 ≤ x.length)

/-- The four stages of the cascade, in the order stated by the spec. -/
def refStages (html : Str) : List (List Str) :=
  [p1Scan html, groupScan html, p3Scan html, p4Scan html]

/-- The first stage that yields any matches (empty when none does). -/
def chosenStage (html : Str) : List Str :=
  ((refStages html).find? (fun l => !l.isEmpty)).getD []

/-- The cascade as the spec words it: stop at the first pattern stage that
yields any matches, and deduplicate preserving first-seen order. -/
def refCascadeSpec (html : Str) : List Str := dedupFirst (chosenStage html)

end RefDiscovery

section JsonModel

/-! ### JSON model
Models `serde_json`: parsed values, `from_str`, `Value::get`.  Objects are
kept as key-sorted member lists with at most one entry per key, matching the
`BTreeMap` backing of `serde_json::Value::Object` (iteration in key order,
later duplicate keys overwriting earlier ones).  The number grammar is
restricted to integers, which covers every input treated here; `from_str`
requires the whole input (modulo trailing whitespace) to be consumed, as the
model does. -/

inductive Json where
  | null : Json
  | bool (b : Bool) : Json
  | num (n : Int) : Json
  | str (s : Str) : Json
  | arr (items : List Json) : Json
  | obj (members : List (Str × Json)) : Json

/-- Byte-lexicographic string order (the `Ord` used by the `BTreeMap`;
coincides with character order on ASCII). -/
def strLt : Str → Str → Bool
  | [], [] => false
  | [], _ :: _ => true
  | _ :: _, [] => false
  | a :: as, b :: bs =>
    if a.toNat < b.toNat then true
    else if a = b then strLt as bs
    else false

/-- `BTreeMap::insert`: sorted insertion, replacing the value on equal key. -/
def insertMember (m : List (Str × Json)) (k : Str) (v : Json) : List (Str × Json) :=
  match m with
  | [] => [(k, v)]
  | (k2, v2) :: rest =>
    if strLt k k2 then (k, v) :: (k2, v2) :: rest
    else if k = k2 then (k, v) :: rest
    else (k2, v2) :: insertMember rest k v

/-- `BTreeMap::get` on the member list. -/
def lookupKey (m : List (Str × Json)) (k : Str) : Option Json :=
  match m with
  | [] => none
  | (k2, v) :: rest => if k2 = k then some v else lookupKey rest k

/-- `serde_json::Value::get(key)`: member lookup on objects, `None` elsewhere. -/
def Json.get (j : Json) (k : Str) : Option Json :=
  match j with
  | .obj m => lookupKey m k
  | _ => none

/-- JSON whitespace. -/
def jsonWs (c : Char) : Bool := c = ' ' || c = '\t' || c = '\n' || c = '\r'

def skipWs (s : Str) : Str := s.dropWhile jsonWs

def hexVal (c : Char) : Option Nat :=
  if c.isDigit then some (c.toNat - 48)
  else if 'a' ≤ c ∧ c ≤ 'f' then some (c.toNat - 87)
  else if 'A' ≤ c ∧ c ≤ 'F' then some (c.toNat - 55)
  else none

/-- JSON string body after the opening quote: content up to the closing
quote, with the standard escapes resolved. -/
def parseJstring : Str → Option (Str × Str)
  | '"' :: rest => some ([], rest)
  | '\\' :: 'n' :: rest => (parseJstring rest).map (fun p => ('\n' :: p.1, p.2))
  | '\\' :: 't' :: rest => (parseJstring rest).map (fun p => ('\t' :: p.1, p.2))
  | '\\' :: 'r' :: rest => (parseJstring rest).map (fun p => ('\r' :: p.1, p.2))
  | '\\' :: 'b' :: rest => (parseJstring rest).map (fun p => ('\x08' :: p.1, p.2))
  | '\\' :: 'f' :: rest => (parseJstring rest).map (fun p => ('\x0c' :: p.1, p.2))
  | '\\' :: '/' :: rest => (parseJstring rest).map (fun p => ('/' :: p.1, p.2))
  | '\\' :: '"' :: rest => (parseJstring rest).map (fun p => ('"' :: p.1, p.2))
  | '\\' :: '\\' :: rest => (parseJstring rest).map (fun p => ('\\' :: p.1, p.2))
  | '\\' :: 'u' :: h1 :: h2 :: h3 :: h4 :: rest =>
    match hexVal h1, hexVal h2, hexVal h3, hexVal h4 with
    | some a, some b, some c, some d =>
      (parseJstring rest).map
        (fun p => (Char.ofNat (4096 * a + 256 * b + 16 * c + d) :: p.1, p.2))
    | _, _, _, _ => none
  | '\\' :: _ => none
  | c :: rest => (parseJstring rest).map (fun p => (c :: p.1, p.2))
  | [] => none

/-- Integer number token (JSON grammar: no redundant leading zero). -/
def parseNatNum (s : Str) : Option (Nat × Str) :=
  let ds := takeDigits s
  if ds.isEmpty then none
  else if 1 < ds.length ∧ ds.headD '0' = '0' then none
  else some (ds.foldl (fun a c => a * 10 + (c.toNat - 48)) 0, s.drop ds.length)

mutual

/-- One JSON value, fuelled recursive descent (fuel bounds the call depth;
`input length + 1` always suffices since every recursive call consumes at
least one character). -/
def parseJval : Nat → Str → Option (Json × Str)
  | 0, _ => none
  | fuel + 1, s =>
    match skipWs s with
    | [] => none
    | c :: rest =>
      if c = '"' then (parseJstring rest).map (fun p => (Json.str p.1, p.2))
      else if c = '\x7b' then parseJobj fuel (skipWs rest) []
      else if c = '[' then parseJarr fuel (skipWs rest) []
      else if c = 't' then
        if "rue".toList.isPrefixOf rest then some (Json.bool true, rest.drop 3) else none
      else if c = 'f' then
        if "alse".toList.isPrefixOf rest then some (Json.bool false, rest.drop 4) else none
      else if c = 'n' then
        if "ull".toList.isPrefixOf rest then some (Json.null, rest.drop 3) else none
      else if c = '-' then
        (parseNatNum rest).map (fun p => (Json.num (-(p.1 : Int)), p.2))
      else if c.isDigit then
        (parseNatNum (c :: rest)).map (fun p => (Json.num (p.1 : Int), p.2))
      else none

/-- Object members after the opening brace (or after a member separator);
the closing brace alone is accepted only for the empty object, so a trailing
comma is rejected as `serde_json` does. -/
def parseJobj : Nat → Str → List (Str × Json) → Option (Json × Str)
  | 0, _, _ => none
  | fuel + 1, s, acc =>
    match s with
    | '\x7d' :: rest => if acc.isEmpty then some (Json.obj acc, rest) else none
    | '"' :: rest =>
      match parseJstring rest with
      | none => none
      | some (k, r1) =>
        match skipWs r1 with
        | ':' :: r2 =>
          match parseJval fuel r2 with
          | none => none
          | some (v, r3) =>
            match skipWs r3 with
            | ',' :: r4 => parseJobj fuel (skipWs r4) (insertMember acc k v)
            | '\x7d' :: r4 => some (Json.obj (insertMember acc k v), r4)
            | _ => none
        | _ => none
    | _ => none

/-- Array items after the opening bracket (or after a separator). -/
def parseJarr : Nat → Str → List Json → Option (Json × Str)
  | 0, _, _ => none
  | fuel + 1, s, acc =>
    match s with
    | ']' :: rest => if acc.isEmpty then some (Json.arr acc.reverse, rest) else none
    | _ =>
      match parseJval fuel s with
      | none => none
      | some (v, r1) =>
        match skipWs r1 with
        | ',' :: r2 => parseJarr fuel (skipWs r2) (v :: acc)
        | ']' :: r2 => some (Json.arr (v :: acc).reverse, r2)
        | _ => none

end

/-- `serde_json::from_str`: parse one value and require only whitespace to
remain. -/
def parseJson (s : Str) : Option Json :=
  match parseJval (s.length + 1) s with
  | some (j, rest) => if (skipWs rest).isEmpty then some j else none
  | none => none

end JsonModel

section SuggestionJson

/-! ### Suggestion Parser, JSON strategy
Embeds `extract_suggestion_from_json` (`src/main.rs` lines 1011-1064) and
`find_suggestion_text_recursive` (lines 1066-1099). -/

/-- The anti-JSON-hijacking prefix `for (;;);`. -/
def ajaxPrefix : Str := "for (;;);".toList

/-- Strip of the anti-hijacking prefix (`&json_response[9..]`). -/
def stripAjax (s : Str) : Str := if ajaxPrefix.isPrefixOf s then s.drop 9 else s

/-- The gate of `find_suggestion_text_recursive` on a candidate value:
non-empty after trimming, and holding a change-indicative substring
(`uuuu`, `-`, or `+`). -/
def goodSuggestion (t : Str) : Bool :=
  !(strTrim t).isEmpty &&
    (containsSub t "uuuu".toList || containsSub t "-".toList ||
      containsSub t "+".toList)

/-- The own-key check an object node performs before recursing: its
`suggestionText` member, when it is a string passing the gate. -/
def ownSuggestion (j : Json) : Option Str :=
  match j with
  | .obj m =>
    match lookupKey m "suggestionText".toList with
    | some (.str t) => if goodSuggestion t then some t else none
    | _ => none
  | _ => none

mutual

/-- `find_suggestion_text_recursive` (lines 1066-1099): check the node's own
`suggestionText`, then recurse depth-first through object member values (in
map iteration order) and array elements, first hit winning. -/
def find_suggestion_text_recursive : Json → Option Str
  | .obj m =>
    match ownSuggestion (.obj m) with
    | some t => some t
    | none => findSugMembers m
  | .arr l => findSugArr l
  | _ => none

def findSugMembers : List (Str × Json) → Option Str
  | [] => none
  | (_, v) :: rest =>
    match find_suggestion_text_recursive v with
    | some t => some t
    | none => findSugMembers rest

def findSugArr : List Json → Option Str
  | [] => none
  | v :: rest =>
    match find_suggestion_text_recursive v with
    | some t => some t
    | none => findSugArr rest

end

mutual

/-- Depth-first preorder listing of all nodes of a JSON tree. -/
def jsonPreorder : Json → List Json
  | .obj m => .obj m :: preMembers m
  | .arr l => .arr l :: preArr l
  | j => [j]

def preMembers : List (Str × Json) → List Json
  | [] => []
  | (_, v) :: rest => jsonPreorder v ++ preMembers rest

def preArr : List Json → List Json
  | [] => []
  | v :: rest => jsonPreorder v ++ preArr rest

end

/-- Replacement loop of Rust `str::replace(pat, rep)`: all non-overlapping
occurrences, left to right.  The fuel bounds the steps; every step consumes
at least one character of the haystack, so the haystack length suffices. -/
def replaceAllF (pat rep : Str) : Nat → Str → Str
  | _, [] => []
  | 0, s => s
  | fuel + 1, s@(c :: t) =>
    if ¬pat.isEmpty ∧ pat.isPrefixOf s then
      rep ++ replaceAllF pat rep fuel (s.drop pat.length)
    else c :: replaceAllF pat rep fuel t

/-- Models Rust `str::replace(pat, rep)`. -/
def replaceAll (pat rep s : Str) : Str := replaceAllF pat rep s.length s

/-- The escape-resolution chain of the regex fallback, in source order
(`\n`, `\t`, `>`, `<`, `\/`, `\"`, `\\`). -/
def unescapeSug (s : Str) : Str :=
  replaceAll "\\\\".toList "\\".toList
    (replaceAll "\\\"".toList "\"".toList
      (replaceAll "\\/".toList "/".toList
        (replaceAll "\\u003c".toList "<".toList
          (replaceAll "\\u003e".toList ">".toList
            (replaceAll "\\t".toList "\t".toList
              (replaceAll "\\n".toList "\n".toList s))))))

/-- The capture group `((?:[^"\\]|\\.)*)` of the fallback regex, anchored
after the marker: the raw span up to the first unescaped quote (a backslash
always consumes the following character; reaching the end without a closing
quote fails). -/
def escCapture : Str → Option Str
  | [] => none
  | '"' :: _ => some []
  | '\\' :: c :: rest => (escCapture rest).map (fun t => '\\' :: c :: t)
  | '\\' :: [] => none
  | c :: rest => (escCapture rest).map (fun t => c :: t)

/-- Models `Regex::captures` of `"suggestionText":"((?:[^"\\]|\\.)*)"`: the
first marker occurrence from which the capture (and its closing quote)
succeeds. -/
def sugTextRegex : Str → Option Str
  | [] => none
  | s@(_ :: t) =>
    if "\"suggestionText\":\"".toList.isPrefixOf s then
      match escCapture (s.drop 18) with
      | some cap => some cap
      | none => sugTextRegex t
    else sugTextRegex t

/-- The `**Suggested changes:**` wrapper of the JSON strategy. -/
def sugWrap (t : Str) : Str :=
  "**Suggested changes:**\n\n```diff\n".toList ++ t ++ "\n```".toList

/-- The regex fallback arm of `extract_suggestion_from_json` (lines
1038-1061), applied to the raw response. -/
def jsonRegexFallback (jsonResponse : Str) : Option Str :=
  match sugTextRegex jsonResponse with
  | some cap =>
    if (strTrim (unescapeSug cap)).isEmpty then none
    else some (sugWrap (strTrim (unescapeSug cap)))
  | none => none

/-- `extract_suggestion_from_json` (lines 1011-1064): strip the prefix,
parse as JSON and search recursively; on any failure fall back to the regex
capture over the raw text. -/
def extract_suggestion_from_json (jsonResponse : Str) : Option Str :=
  match parseJson (stripAjax jsonResponse) with
  | some j =>
    match find_suggestion_text_recursive j with
    | some t =>
      if (strTrim t).isEmpty then jsonRegexFallback jsonResponse
      else some (sugWrap (strTrim t))
    | none => jsonRegexFallback jsonResponse
  | none => jsonRegexFallback jsonResponse

/-- The concrete JSON body of the claim, `{"suggestionText":"-old\n+new"}`
as raw text (with the two-character escape `\n` inside). -/
def jsonSugBody : Str := "\x7b\"suggestionText\":\"-old\\n+new\"\x7d".toList

/-- The output the JSON strategy produces for `jsonSugBody`. -/
def jsonSugOut : Str := "**Suggested changes:**\n\n```diff\n-old\n+new\n```".toList

/-- A malformed body: not JSON, but holding a `suggestionText` field the
regex fallback can capture. -/
def badJsonBody : Str := "x \"suggestionText\":\"-a\\n+b\" y".toList

end SuggestionJson

section HtmlModel

/-! ### HTML model
Models the `scraper` library on the well-formed fragments this pipeline
feeds it: a document is a tree of elements (tag, raw class attribute,
children) and text nodes.  Selection by CSS class or tag walks descendants
in document (preorder) order, as `scraper::ElementRef::select` does;
`text()` concatenates descendant text nodes; `html()` re-serializes the
element with its class attribute.  The fragment parser handles balanced
open/close tags with an optional `class` attribute, which covers the
changeset fragments treated here. -/

inductive Node where
  | text (s : Str) : Node
  | elem (tag : Str) (cls : Str) (children : List Node) : Node

def isTagChar (c : Char) : Bool := c.isAlphanum

/-- The value of the `class` attribute inside an open tag's attribute text. -/
def extractClassAttr (attrText : Str) : Str :=
  match findSubIdx attrText "class=\"".toList with
  | some i => (attrText.drop (i + 7)).takeWhile (· ≠ '"')
  | none => []

/-- Fragment parsing, fuelled recursive descent: a list of sibling nodes up
to an unmatched close tag or the end of input. -/
def parseNodesF : Nat → Str → (List Node × Str)
  | 0, cs => ([], cs)
  | _ + 1, [] => ([], [])
  | _ + 1, cs@('<' :: '/' :: _) => ([], cs)
  | fuel + 1, '<' :: rest =>
    let tag := rest.takeWhile isTagChar
    let afterTag := rest.dropWhile isTagChar
    let attrText := afterTag.takeWhile (· ≠ '>')
    let afterGt := (afterTag.dropWhile (· ≠ '>')).drop 1
    let cls := extractClassAttr attrText
    let res := parseNodesF fuel afterGt
    let rem2 := (res.2.dropWhile (· ≠ '>')).drop 1
    let res2 := parseNodesF fuel rem2
    (Node.elem tag cls res.1 :: res2.1, res2.2)
  | fuel + 1, cs =>
    let txt := cs.takeWhile (· ≠ '<')
    let remT := cs.dropWhile (· ≠ '<')
    let res := parseNodesF fuel remT
    (Node.text txt :: res.1, res.2)

/-- Models `Html::parse_document` on a fragment: the parsed forest under a
root element (the wrapping `html` element the library inserts). -/
def parseHtmlDoc (s : Str) : Node :=
  Node.elem "html".toList [] (parseNodesF (s.length + 1) s).1

mutual

/-- Models `ElementRef::text().collect::<String>()`. -/
def textOf : Node → Str
  | .text s => s
  | .elem _ _ ch => textOfList ch

def textOfList : List Node → Str
  | [] => []
  | n :: rest => textOf n ++ textOfList rest

end

mutual

/-- Models `ElementRef::html()`: re-serialization with the class attribute. -/
def serializeNode : Node → Str
  | .text s => s
  | .elem tag cls ch =>
    '<' :: tag ++
      (if cls.isEmpty then [] else " class=\"".toList ++ cls ++ ['"']) ++
      ['>'] ++ serializeList ch ++ '<' :: '/' :: tag ++ ['>']

def serializeList : List Node → Str
  | [] => []
  | n :: rest => serializeNode n ++ serializeList rest

end

mutual

/-- All descendants of a node, in document (preorder) order, self excluded. -/
def descendantsOf : Node → List Node
  | .text _ => []
  | .elem _ _ ch => descList ch

def descList : List Node → List Node
  | [] => []
  | n :: rest => n :: descendantsOf n ++ descList rest

end

/-- Class tokens of a raw class attribute (whitespace-separated). -/
def classTokens (cls : Str) : List Str :=
  (cls.splitOn ' ').filter (fun t => !t.isEmpty)

def isTag (n : Node) (t : Str) : Bool :=
  match n with
  | .elem tag _ _ => decide (tag = t)
  | .text _ => false

/-- A `td` element carrying the given class token (selectors `td.old`,
`td.new`). -/
def tdWithTok (n : Node) (tok : Str) : Bool :=
  match n with
  | .elem tag cls _ => decide (tag = "td".toList) && (classTokens cls).contains tok
  | .text _ => false

/-- The selector group `td.left.old, td.old, .diff-old` of
`extract_suggestion_from_table`. -/
def oldCellSel (n : Node) : Bool :=
  match n with
  | .elem tag cls _ =>
    let tk := classTokens cls
    (decide (tag = "td".toList) && tk.contains "left".toList &&
      tk.contains "old".toList) ||
    (decide (tag = "td".toList) && tk.contains "old".toList) ||
    tk.contains "diff-old".toList
  | .text _ => false

/-- The selector group `td.right.new, td.new, .diff-new`. -/
def newCellSel (n : Node) : Bool :=
  match n with
  | .elem tag cls _ =>
    let tk := classTokens cls
    (decide (tag = "td".toList) && tk.contains "right".toList &&
      tk.contains "new".toList) ||
    (decide (tag = "td".toList) && tk.contains "new".toList) ||
    tk.contains "diff-new".toList
  | .text _ => false

end HtmlModel

section SuggestionHtml

/-! ### Suggestion Parser, HTML strategies and dispatch
Embeds `extract_inline_suggestion` (lines 1200-1251),
`extract_diff_from_changeset` (lines 1130-1197), `find_suggestions_in_html`
with `is_suggestion_done` and `extract_suggestion_from_table` (lines
1101-1128, 1253-1318), and the dispatch `parse_suggestions_from_ajax`
(lines 924-1009). -/

def dashSp : Str := ['-', ' ']

def plusSp : Str := ['+', ' ']

/-- Stripping loop of Rust `str::trim_start_matches(pat)` (all leading
repetitions of the pattern). -/
def trimStartLitF (pat : Str) : Nat → Str → Str
  | 0, s => s
  | fuel + 1, s =>
    if ¬pat.isEmpty ∧ pat.isPrefixOf s then trimStartLitF pat fuel (s.drop pat.length)
    else s

/-- Models Rust `str::trim_start_matches(pat)`. -/
def trimStartLit (pat s : Str) : Str := trimStartLitF pat (s.length + 1) s

def doneTok : Str := "inline-is-done".toList

/-- `payload` → `changeset` string lookup shared by the JSON-wrapped-HTML
branches. -/
def payloadChangeset (j : Json) : Option Str :=
  match j.get "payload".toList with
  | some payload =>
    match payload.get "changeset".toList with
    | some (.str h) => some h
    | _ => none
  | none => none

/-- One candidate diff line, emitted when its gate holds. -/
def lineIf (keep : Bool) (pre cleaned : Str) : List Str :=
  if keep then [pre ++ cleaned] else []

/-- The noise filter of `extract_inline_suggestion`: a cleaned line is kept
when non-empty and free of `break;` and of a closing brace. -/
def inlineKeep (cleaned : Str) : Bool :=
  !cleaned.isEmpty && !containsSub cleaned "break;".toList &&
    !containsSub cleaned ['\x7d']

/-- Per-row line extraction of `extract_inline_suggestion`: rows whose
serialized form holds `left old` / `right new`, text trimmed, `- ` / `+ `
stripped, dropped when empty or holding `break;` or a closing brace. -/
def inlineRowLines (row : Node) : List Str :=
  lineIf (containsSub (serializeNode row) "left old".toList &&
      inlineKeep (strTrim (trimStartLit dashSp (strTrim (textOf row)))))
    dashSp (strTrim (trimStartLit dashSp (strTrim (textOf row)))) ++
  lineIf (containsSub (serializeNode row) "right new".toList &&
      inlineKeep (strTrim (trimStartLit plusSp (strTrim (textOf row)))))
    plusSp (strTrim (trimStartLit plusSp (strTrim (textOf row))))

/-- Joining of collected diff lines: `None` when empty, else the
newline-joined block. -/
def linesResult (lines : List Str) : Option Str :=
  if lines.isEmpty then none else some (List.intercalate nlSep lines)

/-- The diff lines of all `tr` rows under a node, in document order. -/
def rowsLinesOf (doc : Node) (f : Node → List Str) : List Str :=
  (((descendantsOf doc).filter (fun n => isTag n "tr".toList)).map f).flatten

/-- `extract_inline_suggestion` (lines 1200-1251): locate the marker, slice
the first `<table>…</table>` span after it, and collect diff lines from its
rows.  The slice `search_area[table_start..table_end + 8]` (line 1207) is a
Rust range slice: when the first close tag ends before the first open tag
begins (`table_end + 8 < table_start`) the program panics with a
slice-index-order abort; that abort is the `.error ()` outcome here.  (The
upper bound `table_end + 8` never exceeds the length, since `</table>` was
found at `table_end`.) -/
def extract_inline_suggestion (html : Str) : Except Unit (Option Str) :=
  match findSubIdx html "inline-suggestion-view".toList with
  | none => .ok none
  | some i =>
    match findSubIdx (html.drop i) "<table".toList,
          findSubIdx (html.drop i) "</table>".toList with
    | some ts, some te =>
      if te + 8 < ts then .error ()
      else .ok (linesResult (rowsLinesOf
        (parseHtmlDoc (((html.drop i).drop ts).take (te + 8 - ts))) inlineRowLines))
    | _, _ => .ok none

/-- A cell's contribution in `extract_diff_from_changeset`: trimmed text,
kept when non-empty, no further filter. -/
def diffCellLine (pre : Str) (cello : Option Node) : List Str :=
  match cello with
  | some cell => lineIf (!(strTrim (textOf cell)).isEmpty) pre (strTrim (textOf cell))
  | none => []

/-- Per-row line extraction of `extract_diff_from_changeset`: the first
`td.old` and `td.new` cells of each row, trimmed text, no noise filter. -/
def diffRowLines (row : Node) : List Str :=
  diffCellLine dashSp ((descendantsOf row).find? (fun n => tdWithTok n "old".toList)) ++
  diffCellLine plusSp ((descendantsOf row).find? (fun n => tdWithTok n "new".toList))

/-- `extract_diff_from_changeset` (lines 1130-1197). -/
def extract_diff_from_changeset (b : Str) : Option Str :=
  match parseJson (stripAjax b) with
  | some j =>
    match payloadChangeset j with
    | some html => linesResult (rowsLinesOf (parseHtmlDoc html) diffRowLines)
    | none => none
  | none => none

mutual

/-- All `.inline-suggestion-view` elements of a document in preorder, each
with the class-token lists of its ancestor chain (innermost first). -/
def collectSuggestions (ancs : List (List Str)) : Node → List (List (List Str) × Node)
  | .text _ => []
  | .elem tag cls ch =>
    let toks := classTokens cls
    (if toks.contains "inline-suggestion-view".toList then
      [(ancs, Node.elem tag cls ch)]
    else []) ++ collectSuggList (toks :: ancs) ch

def collectSuggList (ancs : List (List Str)) : List Node → List (List (List Str) × Node)
  | [] => []
  | n :: rest => collectSuggestions ancs n ++ collectSuggList ancs rest

end

/-- `is_suggestion_done` (lines 1253-1268): some ancestor element carries the
`inline-is-done` class. -/
def is_suggestion_done (ancs : List (List Str)) : Bool :=
  ancs.any (fun toks => toks.contains doneTok)

/-- The gate of `extract_suggestion_from_table` on a cell: trimmed text
non-empty and not the bare sign, and the cleaned line non-empty. -/
def tableKeep (t cleaned : Str) (sym : Char) : Bool :=
  (!t.isEmpty && decide (t ≠ [sym])) && !cleaned.isEmpty

/-- A cell's contribution in `extract_suggestion_from_table`. -/
def tableCellLine (pre : Str) (sym : Char) (cello : Option Node) : List Str :=
  match cello with
  | some cell =>
    lineIf (tableKeep (strTrim (textOf cell))
        (strTrim (trimStartLit pre (strTrim (textOf cell)))) sym)
      pre (strTrim (trimStartLit pre (strTrim (textOf cell))))
  | none => []

/-- `extract_suggestion_from_table` (lines 1270-1318) applied to one row. -/
def tableRowLines (row : Node) : List Str :=
  tableCellLine dashSp '-' ((descendantsOf row).find? oldCellSel) ++
  tableCellLine plusSp '+' ((descendantsOf row).find? newCellSel)

/-- `extract_suggestion_from_table` (lines 1270-1318): the first descendant
table's rows, old/new cells resolved by the selector groups. -/
def extract_suggestion_from_table (el : Node) : Option Str :=
  match (descendantsOf el).find? (fun n => isTag n "table".toList) with
  | some table => linesResult (rowsLinesOf table tableRowLines)
  | none => none

/-- The suggestion loop of `find_suggestions_in_html` (lines 1101-1128):
skip done suggestions unless requested, return the first table extraction
that succeeds. -/
def suggLoop (includeDone : Bool) : List (List (List Str) × Node) → Option Str
  | [] => none
  | (ancs, el) :: rest =>
    if is_suggestion_done ancs && !includeDone then suggLoop includeDone rest
    else
      match extract_suggestion_from_table el with
      | some t => some t
      | none => suggLoop includeDone rest

/-- `find_suggestions_in_html` (lines 1101-1128).  Line number and file path
are received but unused, as in the source. -/
def find_suggestions_in_html (doc : Node) (_lineNumber : Nat) (_filePath : Str)
    (includeDone : Bool) : Option Str :=
  suggLoop includeDone (collectSuggestions [] doc)

/-- The `**Code changes:**` wrapper the dispatch puts around strategy 3's
result (lines 963-967). -/
def codeWrap (t : Str) : Str :=
  "**Code changes:**\n\n```diff\n".toList ++ t ++ "\n```".toList

/-- The first block of `parse_suggestions_from_ajax` (lines 931-953): HTML
inline-suggestion extraction, attempted when the body holds the
inline-suggestion-view marker.  A panic inside `extract_inline_suggestion`
unwinds through this block. -/
def strat1 (body : Str) : Except Unit (Option Str) :=
  if containsSub body "inline-suggestion-view".toList then
    match parseJson (stripAjax body) with
    | some j =>
      match payloadChangeset j with
      | some html => extract_inline_suggestion html
      | none => .ok none
    | none => .ok none
  else .ok none

/-- `parse_suggestions_from_ajax` (lines 924-1009): the ordered fallback
chain — (1) HTML inline-suggestion extraction when the body holds the
inline-suggestion-view marker, (2) JSON suggestion-text extraction, (3)
generic row-diff extraction wrapped as `**Code changes:**`, (4) HTML-selector
extraction over the payload document (or over the raw body when it is not
JSON).  A strategy-1 panic aborts the whole dispatch: the later strategies
never run. -/
def parse_suggestions_from_ajax (body : Str) (lineNumber : Nat) (filePath : Str)
    (includeDone : Bool) : Except Unit (Option Str) :=
  match strat1 body with
  | .error e => .error e
  | .ok (some r) => .ok (some r)
  | .ok none =>
    match extract_suggestion_from_json body with
    | some r => .ok (some r)
    | none =>
      match extract_diff_from_changeset body with
      | some d => .ok (some (codeWrap d))
      | none =>
        match parseJson (stripAjax body) with
        | some j =>
          match payloadChangeset j with
          | some html =>
            .ok (find_suggestions_in_html (parseHtmlDoc html) lineNumber filePath
              includeDone)
          | none => .ok none
        | none =>
          .ok (find_suggestions_in_html (parseHtmlDoc (stripAjax body)) lineNumber
            filePath includeDone)

/-- The bare-diff-lines output shape of the unwrapped strategies. -/
def bareDiff (s : Str) : Prop :=
  ∃ L : List Str, ¬L.isEmpty ∧
    (∀ l ∈ L, dashSp <+: l ∨ plusSp <+: l) ∧
    s = List.intercalate nlSep L

/-- A concrete changeset body on which the HTML inline-suggestion strategy
(strategy 1) succeeds. -/
def inlineSugBody : Str :=
  ("for (;;);\x7b\"payload\":\x7b\"changeset\":\"<div class=\\\"inline-suggestion-view\\\">" ++
   "<table><tr class=\\\"left old\\\"><td>old code</td></tr></table></div>\"\x7d\x7d").toList

/-- A changeset fragment on which the table-span slice's start exceeds its
end: after the marker, the first `</table>` ends (index 22 + 8 = 30) before
the first `<table` begins (index 40). -/
def abortSugHtml : Str := "inline-suggestion-view</table>0123456789<table>".toList

/-- An ajax body delivering `abortSugHtml` as the payload changeset, so that
strategy 1 reaches the panicking slice. -/
def abortSugBody : Str :=
  ("for (;;);\x7b\"payload\":\x7b\"changeset\":\"inline-suggestion-view" ++
   "</table>0123456789<table>\"\x7d\x7d").toList

/-- A suggestion document whose suggestion element sits under an element
carrying the done marker class. -/
def doneDoc : Node :=
  Node.elem "div".toList "inline-is-done".toList
    [Node.elem "div".toList "inline-suggestion-view".toList
      [Node.elem "table".toList []
        [Node.elem "tr".toList []
          [Node.elem "td".toList "left old".toList [Node.text "old line".toList]],
         Node.elem "tr".toList []
          [Node.elem "td".toList "right new".toList [Node.text "new line".toList]]]]]

end SuggestionHtml

section InlineGate

/-! ### Empty-inline-comment gating
Embeds the empty-content branch of the `"inline"` arm of
`extract_comments_with_progress` (`src/main.rs` lines 1648-1676) and
`fetch_suggestion_from_web` (lines 452-468).  The suggestion pipeline's
outcome is passed in as an `Except Unit (Option Str)`: `.ok none` covers the
error-valued and skipped failures of the fetch/parse chain, while
`.error ()` is the slice panic of `extract_inline_suggestion` (line 1207),
which unwinds through `parse_suggestions_from_ajax` and
`fetch_suggestion_from_web` — neither installs a panic handler — and aborts
the enclosing extraction run. -/

/-- The placeholder substituted for an unresolvable empty inline comment. -/
def placeholderText : Str :=
  ("*[Empty inline comment - likely contains a code suggestion that cannot " ++
   "be extracted via API]*").toList

structure InlineOutcome where
  content : Str
  attempted : Bool

/-- The empty-content branch (lines 1653-1675): the web fetch is attempted
only when the line number is positive and the file path non-empty; an
`.ok none` outcome — and a suppressed attempt — both yield the placeholder,
while a panic in the attempted fetch aborts the run (nothing in
`extract_comments_with_progress` catches it). -/
def resolve_empty_inline (lineNumber : Nat) (filePath : Str)
    (webResult : Except Unit (Option Str)) : Except Unit InlineOutcome :=
  if 0 < lineNumber ∧ ¬filePath.isEmpty then
    match webResult with
    | .error e => .error e
    | .ok (some s) => .ok ⟨s, true⟩
    | .ok none => .ok ⟨placeholderText, true⟩
  else .ok ⟨placeholderText, false⟩

/-- `fetch_suggestion_from_web` (lines 452-468): fetch the changeset data,
then parse it; an absent changeset is `None`, and a parse panic unwinds. -/
def fetch_suggestion_from_web (changesetData : Option Str)
    (parseResult : Str → Except Unit (Option Str)) : Except Unit (Option Str) :=
  match changesetData with
  | some d => parseResult d
  | none => .ok none

end InlineGate

section CookieSourcing

/-! ### Credential sourcing
`extract_firefox_cookies` (`src/main.rs` lines 223-240) consults the outside
world — the `PHABRICATOR_COOKIES` environment value, else the Firefox cookie
store — every time it is called; the program has no cookie cache (its only
memoized map is the user display-name cache).  The outside world is modelled
as a stream of snapshots indexed by the number of reads performed so far,
which makes both the repeated reading and any change of the store between
reads observable.  The store path condenses
`extract_cookies_from_firefox_db` / `find_firefox_profile_dir` to the
domain-matching rows they query. -/

structure CookieSrc where
  env : Option Str
  store : List (Str × Str)

structure CookieWorld where
  src : Nat → CookieSrc
  reads : Nat

def phsid : Str := "phsid".toList

def phusr : Str := "phusr".toList

/-- `HashMap::insert` on an association list (replace on equal key).  The
source's `HashMap` iterates in arbitrary order; the claims below compare
mappings built by the same insertion sequence, where this model is exact. -/
def upsert (m : List (Str × Str)) (k v : Str) : List (Str × Str) :=
  match m with
  | [] => [(k, v)]
  | (k2, v2) :: rest => if k2 = k then (k, v) :: rest else (k2, v2) :: upsert rest k v

def hasCookie (m : List (Str × Str)) (k : Str) : Bool :=
  m.any (fun p => decide (p.1 = k))

/-- The environment-override parse (lines 225-236): split on `;`, trim, split
once on `=`, trim name and value. -/
def parseCookieEnv (s : Str) : List (Str × Str) :=
  (s.splitOn ';').foldl
    (fun m pair =>
      match findSubIdx (strTrim pair) ['='] with
      | some i =>
        upsert m (strTrim ((strTrim pair).take i)) (strTrim ((strTrim pair).drop (i + 1)))
      | none => m) []

/-- The store path: the cookie map from the matching rows, failing unless
both required cookies are present. -/
def storeCookies (src : CookieSrc) : Option (List (Str × Str)) :=
  if hasCookie (src.store.foldl (fun m p => upsert m p.1 p.2) []) phsid &&
      hasCookie (src.store.foldl (fun m p => upsert m p.1 p.2) []) phusr then
    some (src.store.foldl (fun m p => upsert m p.1 p.2) [])
  else none

/-- Resolution against one snapshot: a valid environment override wins, else
the store is read. -/
def resolveCookieSrc (src : CookieSrc) : Option (List (Str × Str)) :=
  match src.env with
  | some e =>
    if hasCookie (parseCookieEnv e) phsid && hasCookie (parseCookieEnv e) phusr then
      some (parseCookieEnv e)
    else storeCookies src
  | none => storeCookies src

/-- `extract_firefox_cookies` (lines 223-240): one consultation of the
current snapshot; the read counter advances. -/
def extract_firefox_cookies (w : CookieWorld) :
    Option (List (Str × Str)) × CookieWorld :=
  (resolveCookieSrc (w.src w.reads), ⟨w.src, w.reads + 1⟩)

/-- The per-reference loop of `fetch_changeset_with_refs` (lines 697-753):
each iteration calls `extract_firefox_cookies` afresh to build the request's
cookie header; the list records the mapping each request observed. -/
def refLoopCookies : CookieWorld → List Str → List (Option (List (Str × Str))) × CookieWorld
  | w, [] => ([], w)
  | w, _ :: rest =>
    ((extract_firefox_cookies w).1 ::
        (refLoopCookies (extract_firefox_cookies w).2 rest).1,
      (refLoopCookies (extract_firefox_cookies w).2 rest).2)

/-- The cookie consultations of one `fetch_changeset_with_refs` run: one by
`get_csrf_token_with_cookies` (line 668), then one per reference. -/
def fetch_changeset_cookie_trace (w : CookieWorld) (refs : List Str) :
    List (Option (List (Str × Str))) × CookieWorld :=
  refLoopCookies (extract_firefox_cookies w).2 refs

def cookieSrcA : CookieSrc := ⟨some "phsid=a; phusr=u".toList, []⟩

def cookieSrcB : CookieSrc := ⟨some "phsid=b; phusr=u".toList, []⟩

/-- A world whose cookie source changes after the second read (as the
browser's on-disk store may at any time). -/
def changingWorld : CookieWorld := ⟨fun n => if n ≤ 1 then cookieSrcA else cookieSrcB, 0⟩

def constCookieWorld (src : CookieSrc) : CookieWorld := ⟨fun _ => src, 0⟩

end CookieSourcing

section TempCleanup

/-! ### Cookie-store copy cleanup
Embeds `extract_cookies_from_firefox_db` (`src/main.rs` lines 242-303) as a
transition on an explicit world: whether the store database is locked
(which forces a copy to a temporary file), whether the row query succeeds
and what it returns (`none` models the `?`-propagated prepare/query
failures), and whether the temporary file currently exists.  In the source
the temporary copy is removed only on the success path (line 298): the
`bail!` for missing required cookies (line 290) and every `?` error return
leave the file in place. -/

structure DbWorld where
  locked : Bool
  queryRows : Option (List (Str × Str))
  tempExists : Bool

def buildRows (rows : List (Str × Str)) : List (Str × Str) :=
  rows.foldl (fun m p => upsert m p.1 p.2) []

/-- `extract_cookies_from_firefox_db` (lines 242-303). -/
def extract_cookies_from_firefox_db (w : DbWorld) :
    Option (List (Str × Str)) × DbWorld :=
  match w.queryRows with
  | none => (none, if w.locked then ⟨w.locked, w.queryRows, true⟩ else w)
  | some rows =>
    if hasCookie (buildRows rows) phsid && hasCookie (buildRows rows) phusr then
      (some (buildRows rows),
        if w.locked then ⟨w.locked, w.queryRows, false⟩ else w)
    else (none, if w.locked then ⟨w.locked, w.queryRows, true⟩ else w)

/-- A locked store whose rows lack `phusr`: the bail path. -/
def leakyWorld : DbWorld := ⟨true, some [(phsid, ['x'])], false⟩

end TempCleanup

section HeuristicProbes

/-! ### Final heuristic fallback
Embeds `try_fetch_file_specific_changeset` (`src/main.rs` lines 875-922) and
the dispatch of `fetch_changeset_data` (lines 762-834).  `revision_id` is a
`u32`; the probe list applies `+ 1`, `+ 2`, `- 1`, `- 2` to it, which wrap
modulo 2^32 in release builds and panic on overflow in debug builds; both
behaviours are modelled. -/

def u32Mod : Nat := 4294967296

/-- The five probes of `try_fetch_file_specific_changeset` (lines 882-888),
in source order, under wrapping `u32` arithmetic. -/
def potential_refs_wrapping (id : Nat) : List Nat :=
  [id % u32Mod, (id + 1) % u32Mod, (id + 2) % u32Mod,
   (id + u32Mod - 1) % u32Mod, (id + u32Mod - 2) % u32Mod]

def checkedAddU32 (a b : Nat) : Option Nat :=
  if a + b < u32Mod then some (a + b) else none

def checkedSubU32 (a b : Nat) : Option Nat :=
  if b ≤ a then some (a - b) else none

/-- The probe list under checked (debug-build) arithmetic: `none` models the
overflow panic. -/
def potential_refs_checked (id : Nat) : Option (List Nat) :=
  match checkedAddU32 id 1, checkedAddU32 id 2, checkedSubU32 id 1, checkedSubU32 id 2 with
  | some a1, some a2, some s1, some s2 => some [id, a1, a2, s1, s2]
  | _, _, _, _ => none

structure FetchOutcome where
  result : Option Str
  heuristicProbes : List Nat

/-- The shared continuation of `fetch_changeset_data` after the page-derived
references failed to produce a result: the transaction-derived changeset ids
(`None` when there are none, before any heuristic), then the per-id fetches,
then the final heuristic. -/
def fetch_changeset_rest (id : Nat) (specificResult : Str → Option Str)
    (heurResult : Nat → Option Str) (changeset_ids : List Str) : FetchOutcome :=
  if changeset_ids.isEmpty then ⟨none, []⟩
  else
    match firstSome (changeset_ids.map specificResult) with
    | some r => ⟨some r, []⟩
    | none =>
      ⟨firstSome ((potential_refs_wrapping id).map heurResult),
        potential_refs_wrapping id⟩

/-- `fetch_changeset_data` (lines 762-834) with its network interactions as
oracles: the page-derived references and the response obtained with them,
the response per API changeset id, and the response per heuristic probe.
`heuristicProbes` records the refs the final heuristic probed (empty when it
never ran).  When the id list from the transaction fallback is empty the
function returns `None` before the heuristic (lines 779-781). -/
def fetch_changeset_data (id : Nat) (refsFromPage : List Str)
    (refsResult : Option Str) (specificResult : Str → Option Str)
    (heurResult : Nat → Option Str) (changeset_ids : List Str) : FetchOutcome :=
  match refsFromPage with
  | _ :: _ =>
    match refsResult with
    | some r => ⟨some r, []⟩
    | none => fetch_changeset_rest id specificResult heurResult changeset_ids
  | [] => fetch_changeset_rest id specificResult heurResult changeset_ids

end HeuristicProbes

section DiffIdExtraction

/-! ### Diff-id extraction from a URL
Embeds `extract_diff_id_from_url` (`src/main.rs` lines 1881-1891): the regex
`/D(\d+)(?:\?|$|#)` followed by `parse::<u32>().ok()`, and the abort in
`main` (lines 1931-1947).  At a start position the greedy `\d+` can succeed
only with the maximal digit run — a shorter run ends before a digit, which
is none of `?`, `#`, end — so the regex matches exactly where `/D`, a digit
run and a qualifying follower meet, leftmost occurrence first. -/

/-- A match of `/D(\d+)(?:\?|$|#)` anchored at the head. -/
def qualAt (cs : Str) : Option Str :=
  match cs with
  | '/' :: 'D' :: rest =>
    if (takeDigits rest).isEmpty then none
    else
      match rest.drop (takeDigits rest).length with
      | [] => some (takeDigits rest)
      | c :: _ => if c = '?' ∨ c = '#' then some (takeDigits rest) else none
  | _ => none

/-- The leftmost match of the regex. -/
def firstQualRun : Str → Option Str
  | [] => none
  | cs@(_ :: t) =>
    match qualAt cs with
    | some ds => some ds
    | none => firstQualRun t

def digitsVal (ds : Str) : Nat := ds.foldl (fun a c => a * 10 + (c.toNat - 48)) 0

def u32Max : Nat := 4294967295

/-- `extract_diff_id_from_url` (lines 1881-1891): the captured digits parsed
as `u32` (`parse().ok()` fails above `u32::MAX`). -/
def extract_diff_id_from_url (url : Str) : Option Nat :=
  match firstQualRun url with
  | some ds => if digitsVal ds ≤ u32Max then some (digitsVal ds) else none
  | none => none

def abortMsg : Str := "Could not extract diff ID from URL".toList

/-- The URL branch of `main` (lines 1931-1947): a failed extraction aborts
the run with the context error instead of processing the revision. -/
def main_url_step (url : Str) : Except Str Nat :=
  match extract_diff_id_from_url url with
  | some v => Except.ok v
  | none => Except.error abortMsg

/-- The claim's success condition, stated as a decomposition of the URL:
somewhere it holds `/D`, a non-empty digit run, and then `?`, `#` or the
end of the string. -/
def QualDecomp (url : Str) : Prop :=
  ∃ pre ds post, url = pre ++ '/' :: 'D' :: (ds ++ post) ∧ ds ≠ [] ∧
    (∀ c ∈ ds, c.isDigit) ∧
    (post = [] ∨ ∃ c post2, post = c :: post2 ∧ (c = '?' ∨ c = '#'))

/-- A URL whose qualifying digit run exceeds `u32::MAX`. -/
def hugeUrl : Str := "https://x/D4294967296".toList

end DiffIdExtraction

/-- Invariant of the selection fold: whenever a body has been retained, the
recorded best score is its score and is positive. -/
theorem selectFold_inv (rs : List (Option Str)) (st : Option Str × Nat)
    (h : ∀ b, st.1 = some b → st.2 = scoreBody b ∧ 0 < st.2) :
    ∀ b, (rs.foldl selectStep st).1 = some b →
      (rs.foldl selectStep st).2 = scoreBody b ∧ 0 < (rs.foldl selectStep st).2 := by
  induction rs generalizing st with
  | nil => simpa using h
  | cons r rest ih =>
    simp only [List.foldl_cons]
    apply ih
    intro b hb
    cases r with
    | none => exact h b hb
    | some t =>
      simp only [selectStep] at hb ⊢
      by_cases hc : st.2 < scoreBody t
      · simp only [if_pos hc] at hb ⊢
        cases hb
        exact ⟨rfl, Nat.lt_of_le_of_lt (Nat.zero_le _) hc⟩
      · simp only [if_neg hc] at hb ⊢
        exact h b hb

/-- C1: the Changeset Fetcher scores each candidate body (+100 suggestion-text
marker, +10 inline-suggestion-view marker, +1 generic inline-comment marker),
keeps only strictly-greater-scoring candidates (ties keep the earlier one),
never selects a score-0 candidate, and, for a score-1 body and a score-100
body, selects the score-100 body in either fetch order. -/
theorem C1_scored_selection (b1 b2 : Str)
    (h1 : scoreBody b1 = 1) (h2 : scoreBody b2 = 100) :
    (∀ rs b, fetch_changeset_with_refs rs = some b → 0 < scoreBody b) ∧
    (∀ st t, scoreBody t ≤ st.2 → selectStep st (some t) = st) ∧
    fetch_changeset_with_refs [some b1, some b2] = some b2 ∧
    fetch_changeset_with_refs [some b2, some b1] = some b2 := by
  refine ⟨?_, ?_, ?_, ?_⟩
  · intro rs b hb
    have hinv := selectFold_inv rs (none, 0) (by intro b h; simp at h) b hb
    omega
  · intro st t hle
    simp [selectStep, Nat.not_lt_of_le hle]
  · simp [fetch_changeset_with_refs, selectStep, h1, h2]
  · simp [fetch_changeset_with_refs, selectStep, h1, h2]

theorem pushRefs_append (acc a b : List Str) :
    pushRefs acc (a ++ b) = pushRefs (pushRefs acc a) b := by
  induction a generalizing acc with
  | nil => rfl
  | cons x xs ih =>
    simp only [List.cons_append, pushRefs]
    by_cases h : acc.contains x
    · rw [if_pos h, if_pos h]; exact ih acc
    · rw [if_neg h, if_neg h]; exact ih (acc ++ [x])

theorem mem_pushRefs (acc l : List Str) (y : Str) :
    y ∈ pushRefs acc l ↔ y ∈ acc ∨ y ∈ l := by
  induction l generalizing acc with
  | nil => simp [pushRefs]
  | cons x xs ih =>
    simp only [pushRefs]
    by_cases h : acc.contains x
    · have hx : x ∈ acc := by simpa using h
      rw [if_pos h, ih]
      simp only [List.mem_cons]
      constructor
      · rintro (h1 | h1) <;> tauto
      · rintro (h1 | rfl | h1) <;> tauto
    · rw [if_neg h, ih]
      simp only [List.mem_append, List.mem_singleton, List.mem_cons]
      tauto

theorem nodup_pushRefs (acc l : List Str) (h : acc.Nodup) : (pushRefs acc l).Nodup := by
  induction l generalizing acc with
  | nil => exact h
  | cons x xs ih =>
    simp only [pushRefs]
    by_cases hc : acc.contains x
    · rw [if_pos hc]; exact ih acc h
    · rw [if_neg hc]
      apply ih
      have hx : x ∉ acc := by simpa using hc
      simp [List.nodup_append, h, hx]

theorem pushRefs_sublist (acc l : List Str) :
    List.Sublist (pushRefs acc l) (acc ++ l) := by
  induction l generalizing acc with
  | nil => rw [List.append_nil]; exact List.Sublist.refl acc
  | cons x xs ih =>
    simp only [pushRefs]
    by_cases hc : acc.contains x
    · rw [if_pos hc]
      exact (ih acc).trans (List.Sublist.append_left ((List.Sublist.refl xs).cons x) acc)
    · rw [if_neg hc]
      have h2 := ih (acc ++ [x])
      rw [List.append_assoc] at h2
      simpa using h2

theorem length_le_pushRefs (acc l : List Str) : acc.length ≤ (pushRefs acc l).length := by
  induction l generalizing acc with
  | nil => simp [pushRefs]
  | cons x xs ih =>
    simp only [pushRefs]
    by_cases hc : acc.contains x
    · rw [if_pos hc]; exact ih acc
    · rw [if_neg hc]
      calc acc.length ≤ (acc ++ [x]).length := by simp
        _ ≤ _ := ih _

theorem pushRefs_nil_eq_nil_iff (l : List Str) : pushRefs [] l = [] ↔ l = [] := by
  constructor
  · intro h
    cases l with
    | nil => rfl
    | cons x xs =>
      exfalso
      have h1 : pushRefs ([] : List Str) (x :: xs) = pushRefs [x] xs := rfl
      rw [h1] at h
      have h2 := length_le_pushRefs [x] xs
      rw [h] at h2
      simp at h2
  · rintro rfl; rfl

theorem pushRefs7_eq (acc l : List Str) :
    pushRefs7 acc l = pushRefs acc (l.filter (fun x => 7 ≤ x.length)) := by
  induction l generalizing acc with
  | nil => rfl
  | cons x xs ih =>
    by_cases h7 : 7 ≤ x.length
    · by_cases hc : acc.contains x = true
      · simp [pushRefs7, pushRefs, List.filter_cons, h7, hc, ih]
      · simp [pushRefs7, pushRefs, List.filter_cons, h7, hc, ih]
    · simp [pushRefs7, List.filter_cons, h7, ih]

theorem p1Scan_cons_eq_nil {c : Char} {t : Str} (h : p1Scan (c :: t) = []) :
    refCapture (c :: t) = [] ∧ p1Scan t = [] := by
  have h2 : refCapture (c :: t) ++ p1Scan t = [] := h
  exact List.append_eq_nil.mp h2

theorem p1Scan_suffix_nil {s t : Str} (hsuf : t <:+ s) (h : p1Scan s = []) :
    p1Scan t = [] := by
  obtain ⟨u, rfl⟩ := hsuf
  induction u with
  | nil => simpa using h
  | cons a u ih =>
    rw [List.cons_append] at h
    exact ih (p1Scan_cons_eq_nil h).2

/-- A successful `[^&]*ref=(\d+)` tail implies the whole span matches
`ref=(\d+)` somewhere. -/
theorem findRefInSpan_some : ∀ {u ds : Str}, findRefInSpan u = some ds → p1Scan u ≠ []
  | [], ds, h => by simp [findRefInSpan] at h
  | c :: t, ds, h => by
    intro hnil
    obtain ⟨h1, h2⟩ := p1Scan_cons_eq_nil hnil
    simp only [findRefInSpan] at h
    by_cases hamp : c = '&'
    · simp [hamp] at h
    · rw [if_neg hamp, h1] at h
      exact findRefInSpan_some h h2

/-- When pattern 1 (`ref=(\d+)`) has no match anywhere, the URL-path pattern
cannot match at this position either: any of its matches must pass through a
literal `ref=` followed by a digit. -/
theorem p4At_none {s : Str} (h : p1Scan s = []) : p4At s = none := by
  unfold p4At
  by_cases hpre : "differential/changeset/".toList.isPrefixOf s = true
  · rw [if_pos hpre]
    cases hq : (s.drop 23).dropWhile (· ≠ '?') with
    | nil => rfl
    | cons q afterQ =>
      show findRefInSpan afterQ = none
      cases hfr : findRefInSpan afterQ with
      | none => rfl
      | some ds =>
        exfalso
        have hsuf : afterQ <:+ s := by
          have hs1 : afterQ <:+ q :: afterQ := List.suffix_cons q afterQ
          have hs2 : (q :: afterQ) <:+ s.drop 23 := by
            rw [← hq]; exact List.dropWhile_suffix _
          exact hs1.trans (hs2.trans (List.drop_suffix 23 s))
        exact findRefInSpan_some hfr (p1Scan_suffix_nil hsuf h)
  · rw [if_neg hpre]

/-- Pattern 4 is observably inert: it can only match where pattern 1 also
matches, so in the branch where pattern 1 found nothing it finds nothing. -/
theorem p4Scan_nil {s : Str} (h : p1Scan s = []) : p4Scan s = [] := by
  induction s with
  | nil => rfl
  | cons c t ih =>
    have hd := p1Scan_cons_eq_nil h
    show (p4At (c :: t)).toList ++ p4Scan t = []
    rw [p4At_none h, ih hd.2]
    rfl

/-- C4: the Reference Discoverer behaves as an ordered cascade stopping at the
first pattern stage that yields matches (simple `ref=` parameter, then the
pooled group of five encodings, then the bare 7-8 digit scan, then the
URL-path pattern — the last being provably unreachable), and the result is
deduplicated by value with first-seen order preserved. -/
theorem C4_reference_cascade (html : Str) :
    extract_ref_parameters_from_page html = refCascadeSpec html ∧
    (extract_ref_parameters_from_page html).Nodup ∧
    List.Sublist (extract_ref_parameters_from_page html) (chosenStage html) ∧
    (∀ x, x ∈ extract_ref_parameters_from_page html ↔ x ∈ chosenStage html) := by
  have hgrp : ∀ base : List Str,
      pushRefs7 (pushRefs7 (pushRefs7 (pushRefs7 (pushRefs7 base
        (p2aScan html)) (p2bScan html)) (p2cScan html)) (p2dScan html)) (p2eScan html)
      = pushRefs base (groupScan html) := by
    intro base
    simp only [pushRefs7_eq, groupScan, List.filter_append, pushRefs_append]
  have heq : extract_ref_parameters_from_page html = refCascadeSpec html := by
    by_cases h1 : p1Scan html = []
    · have hr1 : pushRefs [] (p1Scan html) = [] := by rw [h1]; rfl
      unfold extract_ref_parameters_from_page
      rw [hr1]
      simp only [List.isEmpty_nil, if_true, hgrp]
      by_cases hg : groupScan html = []
      · have hg0 : pushRefs [] (groupScan html) = [] := by rw [hg]; rfl
        rw [hg0]
        simp only [List.isEmpty_nil, if_true]
        rw [p4Scan_nil h1]
        by_cases hp3 : p3Scan html = []
        · have hcs : chosenStage html = [] := by
            unfold chosenStage refStages
            rw [h1, hg, hp3, p4Scan_nil h1]
            rfl
          rw [hp3]
          show ([] : List Str) = refCascadeSpec html
          unfold refCascadeSpec
          rw [hcs]
          rfl
        · have hcs : chosenStage html = p3Scan html := by
            unfold chosenStage refStages
            rw [h1, hg]
            cases h3 : p3Scan html with
            | nil => exact absurd h3 hp3
            | cons a l => rfl
          show pushRefs [] (p3Scan html) = refCascadeSpec html
          unfold refCascadeSpec dedupFirst
          rw [hcs]
      · have hcs : chosenStage html = groupScan html := by
          unfold chosenStage refStages
          rw [h1]
          cases hx : groupScan html with
          | nil => exact absurd hx hg
          | cons a l => rfl
        have hgne : (pushRefs [] (groupScan html)).isEmpty = false := by
          cases hx : pushRefs [] (groupScan html) with
          | nil => exact absurd ((pushRefs_nil_eq_nil_iff _).mp hx) hg
          | cons a l => rfl
        rw [hgne]
        simp only [Bool.false_eq_true, if_false]
        rw [p4Scan_nil h1]
        show pushRefs [] (groupScan html) = refCascadeSpec html
        unfold refCascadeSpec dedupFirst
        rw [hcs]
    · have hcs : chosenStage html = p1Scan html := by
        unfold chosenStage refStages
        cases hx : p1Scan html with
        | nil => exact absurd hx h1
        | cons a l => rfl
      have hne : (pushRefs [] (p1Scan html)).isEmpty = false := by
        cases hx : pushRefs [] (p1Scan html) with
        | nil => exact absurd ((pushRefs_nil_eq_nil_iff _).mp hx) h1
        | cons a l => rfl
      simp only [extract_ref_parameters_from_page]
      rw [hne]
      simp only [Bool.false_eq_true, if_false]
      unfold refCascadeSpec dedupFirst
      rw [hcs]
  refine ⟨heq, ?_, ?_, ?_⟩
  · rw [heq]
    exact nodup_pushRefs [] _ List.nodup_nil
  · rw [heq]
    simpa using pushRefs_sublist [] (chosenStage html)
  · intro x
    rw [heq]
    unfold refCascadeSpec dedupFirst
    simp [mem_pushRefs]

example : p1Scan "a ref=8450617 b".toList = ["8450617".toList] := by decide

example : p2aScan "x \"ref\":\"8450617\" y".toList = ["8450617".toList] := by decide

example : p2bScan ("x ".toList ++ [sq] ++ "ref".toList ++ [sq] ++ ": ".toList ++
    [sq] ++ "8450617".toList ++ [sq]) = ["8450617".toList] := by decide

example : p2cScan ("x ref: ".toList ++ [sq] ++ "8450617".toList ++ [sq]) =
    ["8450617".toList] := by decide

example : p2dScan "x ref: 8450617".toList = ["8450617".toList] := by decide

example : p2eScan "z C8450617OL1".toList = ["8450617".toList] := by decide

example : p3Scan "zz 8450617 zz".toList = ["8450617".toList] := by decide

example : p3Scan "zz 845061712 zz".toList = [] := by decide

example : extract_ref_parameters_from_page "a ref=123 ref=8450617 ref=123".toList =
    ["123".toList, "8450617".toList] := by decide

example : extract_ref_parameters_from_page "zz C8450617OL1 and 1234567".toList =
    ["8450617".toList] := by decide

/-- Witness for C1 at concrete bodies: a body holding only the generic
inline-comment marker scores 1, a body holding the suggestion-text marker
scores 100, and the latter is selected in both orders. -/
theorem C1_scored_selection_witness :
    scoreBody "differential-inline-comment".toList = 1 ∧
    scoreBody "suggestionText".toList = 100 ∧
    fetch_changeset_with_refs
      [some "differential-inline-comment".toList, some "suggestionText".toList] =
      some "suggestionText".toList ∧
    fetch_changeset_with_refs
      [some "suggestionText".toList, some "differential-inline-comment".toList] =
      some "suggestionText".toList := by
  refine ⟨by decide, by decide, ?_, ?_⟩
  · exact (C1_scored_selection _ _ (by decide) (by decide)).2.2.1
  · exact (C1_scored_selection _ _ (by decide) (by decide)).2.2.2

theorem firstSome_append {α : Type} (a b : List (Option α)) :
    firstSome (a ++ b) =
      match firstSome a with
      | some x => some x
      | none => firstSome b := by
  induction a with
  | nil => rfl
  | cons o rest ih => cases o <;> simp [firstSome, ih]

/-- The recursive suggestion-text search equals the first passing own-key
check along the depth-first preorder of the tree (strong induction on
size, simultaneously for nodes, member lists and element lists). -/
theorem findSug_preorder_aux (n : Nat) :
    (∀ j : Json, sizeOf j ≤ n →
      find_suggestion_text_recursive j = firstSome ((jsonPreorder j).map ownSuggestion)) ∧
    (∀ m : List (Str × Json), sizeOf m ≤ n →
      findSugMembers m = firstSome ((preMembers m).map ownSuggestion)) ∧
    (∀ l : List Json, sizeOf l ≤ n →
      findSugArr l = firstSome ((preArr l).map ownSuggestion)) := by
  induction n using Nat.strong_induction_on with
  | _ n IH =>
    refine ⟨?_, ?_, ?_⟩
    · intro j hle
      cases j with
      | null => rfl
      | bool b => rfl
      | num k => rfl
      | str s => rfl
      | obj m =>
        have hsz : sizeOf m < n := by
          have hs : sizeOf (Json.obj m) = 1 + sizeOf m := by simp
          omega
        have hmem := (IH (sizeOf m) hsz).2.1 m le_rfl
        cases h : ownSuggestion (Json.obj m) with
        | some t =>
          simp only [find_suggestion_text_recursive, jsonPreorder, List.map_cons, firstSome, h]
        | none =>
          simp only [find_suggestion_text_recursive, jsonPreorder, List.map_cons, firstSome,
            h, hmem]
      | arr l =>
        have hsz : sizeOf l < n := by
          have hs : sizeOf (Json.arr l) = 1 + sizeOf l := by simp
          omega
        have harr := (IH (sizeOf l) hsz).2.2 l le_rfl
        have hown : ownSuggestion (Json.arr l) = none := rfl
        simp only [find_suggestion_text_recursive, jsonPreorder, List.map_cons, firstSome,
          hown, harr]
    · intro m hle
      cases m with
      | nil => rfl
      | cons kv rest =>
        obtain ⟨k, v⟩ := kv
        have hsz : sizeOf ((k, v) :: rest) = 1 + (1 + sizeOf k + sizeOf v) + sizeOf rest := by
          simp
        have hv : sizeOf v < n := by omega
        have hr : sizeOf rest < n := by omega
        have hfv := (IH (sizeOf v) hv).1 v le_rfl
        have hfr := (IH (sizeOf rest) hr).2.1 rest le_rfl
        simp only [findSugMembers, preMembers, List.map_append, firstSome_append, hfv, hfr]
        cases firstSome ((jsonPreorder v).map ownSuggestion) <;> rfl
    · intro l hle
      cases l with
      | nil => rfl
      | cons v rest =>
        have hsz : sizeOf (v :: rest) = 1 + sizeOf v + sizeOf rest := by simp
        have hv : sizeOf v < n := by omega
        have hr : sizeOf rest < n := by omega
        have hfv := (IH (sizeOf v) hv).1 v le_rfl
        have hfr := (IH (sizeOf rest) hr).2.2 rest le_rfl
        simp only [findSugArr, preArr, List.map_append, firstSome_append, hfv, hfr]
        cases firstSome ((jsonPreorder v).map ownSuggestion) <;> rfl

/-- C3: on the JSON body `{"suggestionText":"-old\n+new"}`, with or without
the anti-hijacking prefix, the JSON strategy returns the fenced diff block
with `-old` and `+new` as separate lines and escapes resolved; the recursive
search returns the first gate-passing suggestion-text value in depth-first
preorder; and when JSON parsing fails the strategy equals the regex fallback
over the raw text. -/
theorem C3_json_extraction :
    (extract_suggestion_from_json jsonSugBody = some jsonSugOut ∧
     extract_suggestion_from_json (ajaxPrefix ++ jsonSugBody) = some jsonSugOut ∧
     "-old".toList ∈ jsonSugOut.splitOn '\n' ∧
     "+new".toList ∈ jsonSugOut.splitOn '\n') ∧
    (∀ j : Json, find_suggestion_text_recursive j =
      firstSome ((jsonPreorder j).map ownSuggestion)) ∧
    (∀ b : Str, parseJson (stripAjax b) = none →
      extract_suggestion_from_json b = jsonRegexFallback b) := by
  refine ⟨⟨by decide, by decide, by decide, by decide⟩, ?_, ?_⟩
  · intro j
    exact (findSug_preorder_aux (sizeOf j)).1 j le_rfl
  · intro b h
    unfold extract_suggestion_from_json
    rw [h]

/-- Witness for C3: a malformed body where JSON parsing fails, the strategy
equals the regex fallback, and the fallback recovers the unescaped diff. -/
theorem C3_json_extraction_witness :
    parseJson (stripAjax badJsonBody) = none ∧
    extract_suggestion_from_json badJsonBody = jsonRegexFallback badJsonBody ∧
    jsonRegexFallback badJsonBody = some (sugWrap "-a\n+b".toList) := by
  have hp : (parseJson (stripAjax badJsonBody)).isNone = true := by decide
  have hp2 : parseJson (stripAjax badJsonBody) = none := Option.isNone_iff_eq_none.mp hp
  exact ⟨hp2, C3_json_extraction.2.2 badJsonBody hp2, by decide⟩

theorem lineIf_prefixed (keep : Bool) (pre cleaned l : Str)
    (h : l ∈ lineIf keep pre cleaned) : pre <+: l := by
  unfold lineIf at h
  split at h
  · rcases List.mem_singleton.mp h with rfl
    exact List.prefix_append _ _
  · simp at h

theorem tableCellLine_prefixed (pre : Str) (sym : Char) (cello : Option Node) (l : Str)
    (h : l ∈ tableCellLine pre sym cello) : pre <+: l := by
  unfold tableCellLine at h
  split at h
  · exact lineIf_prefixed _ _ _ _ h
  · simp at h

theorem diffCellLine_prefixed (pre : Str) (cello : Option Node) (l : Str)
    (h : l ∈ diffCellLine pre cello) : pre <+: l := by
  unfold diffCellLine at h
  split at h
  · exact lineIf_prefixed _ _ _ _ h
  · simp at h

theorem inlineRowLines_prefixed (row : Node) :
    ∀ l ∈ inlineRowLines row, dashSp <+: l ∨ plusSp <+: l := by
  intro l hl
  rcases List.mem_append.mp hl with h | h
  · exact Or.inl (lineIf_prefixed _ _ _ _ h)
  · exact Or.inr (lineIf_prefixed _ _ _ _ h)

theorem tableRowLines_prefixed (row : Node) :
    ∀ l ∈ tableRowLines row, dashSp <+: l ∨ plusSp <+: l := by
  intro l hl
  rcases List.mem_append.mp hl with h | h
  · exact Or.inl (tableCellLine_prefixed _ _ _ _ h)
  · exact Or.inr (tableCellLine_prefixed _ _ _ _ h)

theorem diffRowLines_prefixed (row : Node) :
    ∀ l ∈ diffRowLines row, dashSp <+: l ∨ plusSp <+: l := by
  intro l hl
  rcases List.mem_append.mp hl with h | h
  · exact Or.inl (diffCellLine_prefixed _ _ _ h)
  · exact Or.inr (diffCellLine_prefixed _ _ _ h)

theorem rowsLinesOf_prefixed (doc : Node) (f : Node → List Str)
    (hf : ∀ row, ∀ l ∈ f row, dashSp <+: l ∨ plusSp <+: l) :
    ∀ l ∈ rowsLinesOf doc f, dashSp <+: l ∨ plusSp <+: l := by
  intro l hl
  rcases List.mem_flatten.mp hl with ⟨sub, hsub, hlsub⟩
  rcases List.mem_map.mp hsub with ⟨row, _, rfl⟩
  exact hf row l hlsub

theorem linesResult_bare (lines : List Str) (s : Str)
    (hpre : ∀ l ∈ lines, dashSp <+: l ∨ plusSp <+: l)
    (h : linesResult lines = some s) : bareDiff s := by
  unfold linesResult at h
  split at h
  · simp at h
  · rcases Option.some.inj h with rfl
    exact ⟨lines, ‹_›, hpre, rfl⟩

theorem extract_inline_suggestion_bare (html s : Str)
    (h : extract_inline_suggestion html = .ok (some s)) : bareDiff s := by
  unfold extract_inline_suggestion at h
  split at h
  · simp at h
  · split at h
    · split at h
      · simp at h
      · rw [Except.ok.injEq] at h
        exact linesResult_bare _ _ (rowsLinesOf_prefixed _ _ inlineRowLines_prefixed) h
    · simp at h

theorem extract_suggestion_from_table_bare (el : Node) (s : Str)
    (h : extract_suggestion_from_table el = some s) : bareDiff s := by
  unfold extract_suggestion_from_table at h
  split at h
  · exact linesResult_bare _ _ (rowsLinesOf_prefixed _ _ tableRowLines_prefixed) h
  · simp at h

theorem extract_diff_from_changeset_bare (b s : Str)
    (h : extract_diff_from_changeset b = some s) : bareDiff s := by
  unfold extract_diff_from_changeset at h
  split at h
  · split at h
    · exact linesResult_bare _ _ (rowsLinesOf_prefixed _ _ diffRowLines_prefixed) h
    · simp at h
  · simp at h

theorem suggLoop_bare (inc : Bool) (xs : List (List (List Str) × Node)) (s : Str)
    (h : suggLoop inc xs = some s) : bareDiff s := by
  induction xs with
  | nil => simp [suggLoop] at h
  | cons p rest ih =>
    obtain ⟨ancs, el⟩ := p
    unfold suggLoop at h
    split at h
    · exact ih h
    · split at h
      · rcases Option.some.inj h with rfl
        exact extract_suggestion_from_table_bare el _ ‹_›
      · exact ih h

theorem jsonRegexFallback_wrapped (b s : Str)
    (h : jsonRegexFallback b = some s) : ∃ t, s = sugWrap t := by
  unfold jsonRegexFallback at h
  split at h
  · split at h
    · simp at h
    · exact ⟨_, (Option.some.inj h).symm⟩
  · simp at h

theorem extract_suggestion_from_json_wrapped (b s : Str)
    (h : extract_suggestion_from_json b = some s) : ∃ t, s = sugWrap t := by
  unfold extract_suggestion_from_json at h
  split at h
  · split at h
    · split at h
      · exact jsonRegexFallback_wrapped b s h
      · exact ⟨_, (Option.some.inj h).symm⟩
    · exact jsonRegexFallback_wrapped b s h
  · exact jsonRegexFallback_wrapped b s h

theorem strat1_bare (body r : Str) (h : strat1 body = .ok (some r)) :
    bareDiff r := by
  unfold strat1 at h
  split at h
  · split at h
    · split at h
      · exact extract_inline_suggestion_bare _ _ h
      · simp at h
    · simp at h
  · simp at h

/-- C2 (amended): only the JSON strategy wraps its output as
`**Suggested changes:**` with a blank line and a diff fence; the HTML
inline-suggestion strategy and the HTML-selector strategy return the bare
`- `/`+ `-prefixed lines joined by newlines, and the generic row-diff
strategy is wrapped as `**Code changes:**`.  Every dispatch success takes
one of these three shapes. -/
theorem C2_wrapping_by_strategy :
    (∀ (body : Str) (ln : Nat) (fp : Str) (inc : Bool) (s : Str),
      parse_suggestions_from_ajax body ln fp inc = .ok (some s) →
      (∃ t, s = sugWrap t) ∨ (∃ t, s = codeWrap t) ∨ bareDiff s) ∧
    (∀ b s, extract_suggestion_from_json b = some s → ∃ t, s = sugWrap t) ∧
    (∀ h s, extract_inline_suggestion h = .ok (some s) → bareDiff s) ∧
    (∀ (doc : Node) (ln : Nat) (fp : Str) (inc : Bool) (s : Str),
      find_suggestions_in_html doc ln fp inc = some s → bareDiff s) := by
  refine ⟨?_, extract_suggestion_from_json_wrapped, extract_inline_suggestion_bare, ?_⟩
  · intro body ln fp inc s hp
    unfold parse_suggestions_from_ajax at hp
    split at hp
    · simp at hp
    · rw [Except.ok.injEq, Option.some.injEq] at hp
      subst hp
      exact Or.inr (Or.inr (strat1_bare body _ ‹_›))
    · split at hp
      · rw [Except.ok.injEq, Option.some.injEq] at hp
        subst hp
        exact Or.inl (extract_suggestion_from_json_wrapped body _ ‹_›)
      · split at hp
        · rw [Except.ok.injEq, Option.some.injEq] at hp
          subst hp
          exact Or.inr (Or.inl ⟨_, rfl⟩)
        · split at hp
          · split at hp
            · rw [Except.ok.injEq] at hp
              exact Or.inr (Or.inr (suggLoop_bare _ _ _ hp))
            · simp at hp
          · rw [Except.ok.injEq] at hp
            exact Or.inr (Or.inr (suggLoop_bare _ _ _ hp))
  · intro doc ln fp inc s h
    exact suggLoop_bare _ _ _ h

set_option maxRecDepth 40000 in
/-- C2 counterexample: a changeset body on which the HTML inline-suggestion
strategy succeeds, yet the returned string is the bare diff line and does
not begin with the `**Suggested changes:**` wrapper the claim requires of
every success. -/
theorem C2_unwrapped_counterexample :
    parse_suggestions_from_ajax inlineSugBody 1 "f".toList false =
      .ok (some "- old code".toList) ∧
    "**Suggested changes:**".toList.isPrefixOf "- old code".toList = false := by
  exact ⟨by rfl, by decide⟩

/-- Witness for C2 (amended): the JSON strategy's output on the concrete
suggestion body is wrapped. -/
theorem C2_wrapping_by_strategy_witness :
    ∃ t, jsonSugOut = sugWrap t :=
  C2_wrapping_by_strategy.2.1 jsonSugBody jsonSugOut (by decide)

theorem suggLoop_eq_firstSome (inc : Bool) (xs : List (List (List Str) × Node)) :
    suggLoop inc xs =
      firstSome ((xs.filter (fun p => !(is_suggestion_done p.1 && !inc))).map
        (fun p => extract_suggestion_from_table p.2)) := by
  induction xs with
  | nil => rfl
  | cons p rest ih =>
    obtain ⟨ancs, el⟩ := p
    by_cases h : (is_suggestion_done ancs && !inc) = true
    · simp only [suggLoop, List.filter_cons, h, Bool.not_true, if_true,
        Bool.false_eq_true, if_false]
      exact ih
    · have hb : (is_suggestion_done ancs && !inc) = false := by
        cases hx : (is_suggestion_done ancs && !inc) with
        | true => exact absurd hx h
        | false => rfl
      simp only [suggLoop, List.filter_cons, hb, Bool.not_false, if_true,
        Bool.false_eq_true, if_false, List.map_cons]
      cases extract_suggestion_from_table el <;> simp [firstSome, ih]

/-- C5: a suggestion whose ancestor chain carries the done marker class is
suppressed when `includeDone = false` (in particular a document whose
suggestions are all done yields `None`), and the same input yields the
extracted text when `includeDone = true`; in general the parser returns the
first successful table extraction among the non-suppressed suggestions in
document order. -/
theorem C5_done_suppression :
    (∀ (doc : Node) (ln : Nat) (fp : Str),
      (∀ p ∈ collectSuggestions [] doc, is_suggestion_done p.1 = true) →
      find_suggestions_in_html doc ln fp false = none) ∧
    (∀ (doc : Node) (ln : Nat) (fp : Str) (inc : Bool),
      find_suggestions_in_html doc ln fp inc =
        firstSome (((collectSuggestions [] doc).filter
          (fun p => !(is_suggestion_done p.1 && !inc))).map
          (fun p => extract_suggestion_from_table p.2))) ∧
    find_suggestions_in_html doneDoc 1 [] false = none ∧
    find_suggestions_in_html doneDoc 1 [] true =
      some "- old line\n+ new line".toList := by
  refine ⟨?_, ?_, by decide, by decide⟩
  · intro doc ln fp hall
    unfold find_suggestions_in_html
    rw [suggLoop_eq_firstSome]
    have hfil : (collectSuggestions [] doc).filter
        (fun p => !(is_suggestion_done p.1 && !false)) = [] := by
      rw [List.filter_eq_nil_iff]
      intro p hp
      simp [hall p hp]
    rw [hfil]
    rfl
  · intro doc ln fp inc
    exact suggLoop_eq_firstSome inc _

/-- Witness for C5 at the concrete done document: every collected suggestion
has the done marker among its ancestors, and resolution with
`includeDone = false` yields `None`. -/
theorem C5_done_suppression_witness :
    (∀ p ∈ collectSuggestions [] doneDoc, is_suggestion_done p.1 = true) ∧
    find_suggestions_in_html doneDoc 1 [] false = none := by
  have hall : ∀ p ∈ collectSuggestions [] doneDoc, is_suggestion_done p.1 = true := by
    decide
  exact ⟨hall, C5_done_suppression.1 doneDoc 1 [] hall⟩

set_option maxRecDepth 40000 in
/-- C6 (code bug): the gating half of the claim holds — the resolution
attempt is made exactly when the line number is positive and the file path
non-empty, and an error-valued pipeline failure yields the placeholder — but
the no-fatal-failure half does not: on a fetched changeset whose first
`</table>` after the inline-suggestion-view marker ends before the first
`<table` begins, the slice in `extract_inline_suggestion` (line 1207)
panics, the panic unwinds through `parse_suggestions_from_ajax` and
`fetch_suggestion_from_web`, and the attempted resolution aborts the
enclosing extraction run instead of producing the placeholder. -/
theorem C6_inline_slice_abort :
    extract_inline_suggestion abortSugHtml = .error () ∧
    parse_suggestions_from_ajax abortSugBody 1 "f".toList false = .error () ∧
    resolve_empty_inline 1 "f".toList
      (fetch_suggestion_from_web (some abortSugBody)
        (fun d => parse_suggestions_from_ajax d 1 "f".toList false)) = .error () ∧
    (∀ (ln : Nat) (fp : Str) (web : Except Unit (Option Str)),
      resolve_empty_inline ln fp web = .error () ↔
        (0 < ln ∧ ¬fp.isEmpty ∧ web = Except.error ())) ∧
    (∀ (ln : Nat) (fp : Str),
      resolve_empty_inline ln fp (.ok none) =
        .ok ⟨placeholderText, decide (0 < ln ∧ ¬fp.isEmpty)⟩) ∧
    (∀ (ln : Nat) (fp s : Str),
      resolve_empty_inline ln fp (.ok (some s)) =
        .ok (if 0 < ln ∧ ¬fp.isEmpty then ⟨s, true⟩ else ⟨placeholderText, false⟩)) ∧
    (∀ (parseResult : Str → Except Unit (Option Str)),
      fetch_suggestion_from_web none parseResult = .ok none) := by
  refine ⟨by rfl, by rfl, by rfl, ?_, ?_, ?_, fun _ => rfl⟩
  · intro ln fp web
    by_cases h : 0 < ln ∧ fp ≠ []
    · cases web with
      | error e => simp [resolve_empty_inline, h]
      | ok o => cases o <;> simp [resolve_empty_inline, h]
    · simp [resolve_empty_inline, h]
      intro h1 h2
      exact absurd ⟨h1, h2⟩ h
  · intro ln fp
    by_cases h : 0 < ln ∧ fp ≠ []
    · simp [resolve_empty_inline, h]
    · simp [resolve_empty_inline, h]
  · intro ln fp s
    by_cases h : 0 < ln ∧ fp ≠ []
    · simp [resolve_empty_inline, h]
    · simp [resolve_empty_inline, h]

theorem refLoop_const (src : CookieSrc) (n : Nat) (refs : List Str) :
    refLoopCookies ⟨fun _ => src, n⟩ refs =
      (List.replicate refs.length (resolveCookieSrc src),
        ⟨fun _ => src, n + refs.length⟩) := by
  induction refs generalizing n with
  | nil => simp [refLoopCookies]
  | cons r rest ih =>
    have hstep : refLoopCookies ⟨fun _ => src, n⟩ (r :: rest) =
        ((extract_firefox_cookies ⟨fun _ => src, n⟩).1 ::
            (refLoopCookies ⟨fun _ => src, n + 1⟩ rest).1,
          (refLoopCookies ⟨fun _ => src, n + 1⟩ rest).2) := rfl
    rw [hstep, ih (n + 1),
      show n + 1 + rest.length = n + (rest.length + 1) from by omega]
    rfl

/-- C7 counterexample: cookies are re-sourced on every operation.  With a
source that changes between the second and third consultation, one
`fetch_changeset_with_refs` run over two references performs three reads
(token fetch plus one per reference) and the two changeset requests observe
different cookie mappings — contradicting both "sourced at most once per
run" and "every operation observes the same mapping as the first
resolution". -/
theorem C7_no_cookie_cache :
    (fetch_changeset_cookie_trace changingWorld ["1".toList, "2".toList]).2.reads = 3 ∧
    (fetch_changeset_cookie_trace changingWorld ["1".toList, "2".toList]).1 =
      [some [(phsid, ['a']), (phusr, ['u'])],
       some [(phsid, ['b']), (phusr, ['u'])]] ∧
    ([(phsid, ['a']), (phusr, ['u'])] : List (Str × Str)) ≠
      [(phsid, ['b']), (phusr, ['u'])] :=
  ⟨by decide, by decide, by decide⟩

/-- C7 (amended): the code never caches cookies — each run of the fetch loop
re-sources them once for the token fetch and once per reference — and only
when the external source happens to stay unchanged do all operations observe
the same mapping. -/
theorem C7_cookies_resourced (src : CookieSrc) (refs : List Str) :
    (fetch_changeset_cookie_trace (constCookieWorld src) refs).2.reads =
      1 + refs.length ∧
    (fetch_changeset_cookie_trace (constCookieWorld src) refs).1 =
      List.replicate refs.length (resolveCookieSrc src) := by
  have h : fetch_changeset_cookie_trace (constCookieWorld src) refs =
      refLoopCookies ⟨fun _ => src, 1⟩ refs := rfl
  rw [h, refLoop_const src 1 refs]
  exact ⟨rfl, rfl⟩

/-- C8 (code bug): on the bail path for missing required cookies — and on
any query failure — the temporary copy of a locked cookie store is left on
disk; only the success path removes it. -/
theorem C8_temp_file_leak :
    (extract_cookies_from_firefox_db leakyWorld).1 = none ∧
    (extract_cookies_from_firefox_db leakyWorld).2.tempExists = true ∧
    (extract_cookies_from_firefox_db ⟨true, none, false⟩).2.tempExists = true ∧
    (extract_cookies_from_firefox_db
      ⟨true, some [(phsid, ['x']), (phusr, ['u'])], false⟩).2.tempExists = false ∧
    (extract_cookies_from_firefox_db
      ⟨true, some [(phsid, ['x']), (phusr, ['u'])], false⟩).1 =
      some [(phsid, ['x']), (phusr, ['u'])] :=
  ⟨by decide, by decide, by decide, by decide, by decide⟩

/-- C9 counterexample: when both the reference cascade and the
transaction-based fallback yield nothing, the fetch returns `None` without
probing anything; and at `revisionId = 1` the probe arithmetic is not total
— the checked (debug) computation overflows and the wrapping computation
yields 4294967295 in place of the claimed `revisionId - 2`. -/
theorem C9_heuristic_counterexample :
    (fetch_changeset_data 5 [] none (fun _ => none) (fun _ => none) []).result = none ∧
    (fetch_changeset_data 5 [] none (fun _ => none) (fun _ => none)
      []).heuristicProbes = [] ∧
    potential_refs_checked 1 = none ∧
    potential_refs_wrapping 1 = [1, 2, 3, 0, 4294967295] ∧
    ¬ (((potential_refs_wrapping 1).getD 4 0 : Int) = (1 : Int) - 2) :=
  ⟨by decide, by decide, by decide, by decide, by decide⟩

/-- C9 (amended): the heuristic runs only when the transaction fallback
yields at least one id and none of the per-id fetches succeeds; it then
probes exactly id, id+1, id+2, id-1, id-2, without wrap or panic, for every
id with 2 ≤ id and id+2 < 2^32; with an empty id list the fetch returns
`None` and probes nothing. -/
theorem C9_heuristic_probes (id : Nat) (cids : List Str)
    (spec : Str → Option Str) (heur : Nat → Option Str) (refsRes : Option Str)
    (hne : cids ≠ []) (hfail : firstSome (cids.map spec) = none)
    (h2 : 2 ≤ id) (hhi : id + 2 < u32Mod) :
    (fetch_changeset_data id [] refsRes spec heur cids).heuristicProbes =
      [id, id + 1, id + 2, id - 1, id - 2] ∧
    potential_refs_checked id = some [id, id + 1, id + 2, id - 1, id - 2] ∧
    (∀ (sp : Str → Option Str) (hr : Nat → Option Str) (rr : Option Str),
      fetch_changeset_data id [] rr sp hr [] = ⟨none, []⟩) := by
  have hu : u32Mod = 4294967296 := rfl
  rw [hu] at hhi
  have hw : potential_refs_wrapping id = [id, id + 1, id + 2, id - 1, id - 2] := by
    unfold potential_refs_wrapping
    rw [hu]
    have e0 : id % 4294967296 = id := Nat.mod_eq_of_lt (by omega)
    have e1 : (id + 1) % 4294967296 = id + 1 := Nat.mod_eq_of_lt (by omega)
    have e2 : (id + 2) % 4294967296 = id + 2 := Nat.mod_eq_of_lt (by omega)
    have e3 : (id + 4294967296 - 1) % 4294967296 = id - 1 := by
      have hrw : id + 4294967296 - 1 = (id - 1) + 4294967296 := by omega
      rw [hrw, Nat.add_mod_right]
      exact Nat.mod_eq_of_lt (by omega)
    have e4 : (id + 4294967296 - 2) % 4294967296 = id - 2 := by
      have hrw : id + 4294967296 - 2 = (id - 2) + 4294967296 := by omega
      rw [hrw, Nat.add_mod_right]
      exact Nat.mod_eq_of_lt (by omega)
    rw [e0, e1, e2, e3, e4]
  have hie : cids.isEmpty = false := by
    cases cids with
    | nil => exact absurd rfl hne
    | cons a l => rfl
  refine ⟨?_, ?_, fun _ _ _ => rfl⟩
  · show (fetch_changeset_rest id spec heur cids).heuristicProbes = _
    unfold fetch_changeset_rest
    rw [hie]
    simp only [Bool.false_eq_true, if_false, hfail, hw]
  · unfold potential_refs_checked checkedAddU32 checkedSubU32
    rw [hu]
    rw [if_pos (by omega), if_pos (by omega), if_pos (by omega), if_pos (by omega)]

/-- Witness for C9 (amended) at id 5 with one failing changeset id. -/
theorem C9_heuristic_probes_witness :
    (fetch_changeset_data 5 [] none (fun _ => none) (fun _ => none)
      ["9".toList]).heuristicProbes = [5, 6, 7, 4, 3] ∧
    potential_refs_checked 5 = some [5, 6, 7, 4, 3] := by
  have h := C9_heuristic_probes 5 ["9".toList] (fun _ => none) (fun _ => none) none
    (by decide) (by rfl) (by decide) (by decide)
  refine ⟨?_, ?_⟩
  · rw [h.1]
  · rw [h.2.1]

theorem drop_takeWhile_len (p : Char → Bool) (l : Str) :
    l.drop (l.takeWhile p).length = l.dropWhile p := by
  induction l with
  | nil => rfl
  | cons c t ih =>
    by_cases h : p c
    · simp [List.takeWhile_cons, List.dropWhile_cons, h, ih]
    · simp [List.takeWhile_cons, List.dropWhile_cons, h]

theorem takeWhile_append_stop (p : Char → Bool) (ds post : Str)
    (h1 : ∀ c ∈ ds, p c)
    (h2 : post = [] ∨ ∃ c post2, post = c :: post2 ∧ p c = false) :
    (ds ++ post).takeWhile p = ds := by
  induction ds with
  | nil =>
    rcases h2 with rfl | ⟨c, post2, rfl, hc⟩
    · rfl
    · simp [List.takeWhile_cons, hc]
  | cons d rest ih =>
    have hd : p d := h1 d (by simp)
    simp [List.takeWhile_cons, hd, ih (fun c hc => h1 c (by simp [hc]))]

/-- The regex of the diff-id extraction matches exactly when the URL holds
`/D`, a non-empty digit run, and then `?`, `#` or the end of the string. -/
theorem firstQualRun_isSome_iff (url : Str) :
    (firstQualRun url).isSome ↔ QualDecomp url := by
  constructor
  · intro h
    induction url with
    | nil => simp [firstQualRun] at h
    | cons c t ih =>
      cases hq : qualAt (c :: t) with
      | some ds =>
        unfold qualAt at hq
        split at hq
        case h_1 rest heq =>
          split at hq
          · exact absurd hq (by simp)
          case isFalse hemp =>
            have hdig : ∀ x ∈ takeDigits rest, x.isDigit :=
              fun x hx => List.mem_takeWhile_imp hx
            have hsplit : rest = takeDigits rest ++ rest.drop (takeDigits rest).length := by
              unfold takeDigits
              rw [drop_takeWhile_len]
              exact (List.takeWhile_append_dropWhile Char.isDigit rest).symm
            have hnemp : takeDigits rest ≠ [] := by
              cases hx : takeDigits rest with
              | nil => rw [hx] at hemp; exact absurd rfl hemp
              | cons a l => simp
            split at hq
            case h_1 hdropEq =>
              refine ⟨[], takeDigits rest, rest.drop (takeDigits rest).length,
                ?_, hnemp, hdig, Or.inl hdropEq⟩
              rw [heq]
              simp [← hsplit]
            case h_2 c2 rest2 hdropEq =>
              split at hq
              case isTrue hcq =>
                refine ⟨[], takeDigits rest, rest.drop (takeDigits rest).length,
                  ?_, hnemp, hdig, Or.inr ⟨c2, rest2, hdropEq, hcq⟩⟩
                rw [heq]
                simp [← hsplit]
              case isFalse => exact absurd hq (by simp)
        case h_2 => exact absurd hq (by simp)
      | none =>
        have h2 : (firstQualRun t).isSome := by
          unfold firstQualRun at h
          rw [hq] at h
          exact h
        rcases ih h2 with ⟨pre, ds, post, heq, hne, hdig, hpost⟩
        exact ⟨c :: pre, ds, post, by rw [heq]; rfl, hne, hdig, hpost⟩
  · rintro ⟨pre, ds, post, rfl, hne, hdig, hpost⟩
    induction pre with
    | nil =>
      have htk : (ds ++ post).takeWhile Char.isDigit = ds := by
        apply takeWhile_append_stop _ _ _ hdig
        rcases hpost with rfl | ⟨c, post2, rfl, hc⟩
        · exact Or.inl rfl
        · right
          refine ⟨c, post2, rfl, ?_⟩
          rcases hc with rfl | rfl <;> rfl
      have htd : takeDigits (ds ++ post) = ds := htk
      have hq : qualAt ('/' :: 'D' :: (ds ++ post)) = some ds := by
        have hred : qualAt ('/' :: 'D' :: (ds ++ post)) =
            (if (takeDigits (ds ++ post)).isEmpty = true then none
             else
               match (ds ++ post).drop (takeDigits (ds ++ post)).length with
               | [] => some (takeDigits (ds ++ post))
               | c :: _ =>
                 if c = '?' ∨ c = '#' then some (takeDigits (ds ++ post))
                 else none) := rfl
        rw [hred, htd]
        have hdp : (ds ++ post).drop ds.length = post := List.drop_left ds post
        rw [if_neg (by simpa using hne), hdp]
        rcases hpost with rfl | ⟨c, post2, rfl, hc⟩
        · rfl
        · simp [hc]
      show (firstQualRun ('/' :: 'D' :: (ds ++ post))).isSome
      unfold firstQualRun
      rw [hq]
      rfl
    | cons p0 pre2 ih2 =>
      show (firstQualRun ((p0 :: pre2) ++ '/' :: 'D' :: (ds ++ post))).isSome
      rw [List.cons_append]
      cases hq : qualAt (p0 :: (pre2 ++ '/' :: 'D' :: (ds ++ post))) with
      | some ds2 =>
        unfold firstQualRun
        rw [hq]
        rfl
      | none =>
        unfold firstQualRun
        rw [hq]
        exact ih2

/-- C10 (amended): extraction succeeds exactly when the URL holds `/D`
followed by digits immediately followed by `?`, `#` or the end AND the
leftmost such digit run's decimal value fits in `u32`; it then returns that
value; when no run qualifies, or the run's value exceeds `u32::MAX`, the
extraction returns `None` and the program aborts with the context error. -/
theorem C10_diff_id_extraction (url : Str) :
    ((firstQualRun url).isSome ↔ QualDecomp url) ∧
    (∀ ds, firstQualRun url = some ds → digitsVal ds ≤ u32Max →
      extract_diff_id_from_url url = some (digitsVal ds)) ∧
    (extract_diff_id_from_url url = none ↔
      (firstQualRun url = none ∨
        ∃ ds, firstQualRun url = some ds ∧ u32Max < digitsVal ds)) ∧
    (extract_diff_id_from_url url = none →
      main_url_step url = Except.error abortMsg) := by
  refine ⟨firstQualRun_isSome_iff url, ?_, ?_, ?_⟩
  · intro ds h hle
    unfold extract_diff_id_from_url
    rw [h]
    show (if digitsVal ds ≤ u32Max then some (digitsVal ds) else none) =
      some (digitsVal ds)
    rw [if_pos hle]
  · unfold extract_diff_id_from_url
    cases h : firstQualRun url with
    | none => simp
    | some ds =>
      have hred : (match some ds with
          | some ds2 => if digitsVal ds2 ≤ u32Max then some (digitsVal ds2) else none
          | none => none) =
          (if digitsVal ds ≤ u32Max then some (digitsVal ds) else none) := rfl
      rw [hred]
      by_cases hle : digitsVal ds ≤ u32Max
      · rw [if_pos hle]
        constructor
        · intro hc
          exact absurd hc (by simp)
        · rintro (hc | ⟨ds2, hds2, hlt⟩)
          · exact absurd hc (by simp)
          · rcases Option.some.inj hds2 with rfl
            omega
      · rw [if_neg hle]
        constructor
        · intro _
          exact Or.inr ⟨ds, rfl, by omega⟩
        · intro _
          rfl
  · intro h
    unfold main_url_step
    rw [h]

/-- Witness for C10 (amended): a well-formed URL extracts its diff id, and a
URL whose extraction fails makes the run abort. -/
theorem C10_diff_id_extraction_witness :
    extract_diff_id_from_url "https://phab.example/D123?x".toList = some 123 ∧
    main_url_step "https://phab.example/D12345/".toList = Except.error abortMsg := by
  refine ⟨?_, ?_⟩
  · have h := (C10_diff_id_extraction "https://phab.example/D123?x".toList).2.1
      "123".toList (by decide) (by decide)
    rw [h]
    decide
  · exact (C10_diff_id_extraction "https://phab.example/D12345/".toList).2.2.2
      (by decide)

/-- C10 counterexample: this URL holds `/D` followed by digits at the end of
the string — the claim's success condition — yet the digits exceed
`u32::MAX`, so `parse::<u32>()` fails, the extraction returns `None` and the
run aborts instead of returning the decimal value. -/
theorem C10_overflow_counterexample :
    firstQualRun hugeUrl = some "4294967296".toList ∧
    (∀ c ∈ "4294967296".toList, c.isDigit) ∧
    u32Max < digitsVal "4294967296".toList ∧
    extract_diff_id_from_url hugeUrl = none ∧
    main_url_step hugeUrl = Except.error abortMsg :=
  ⟨by decide, by decide, by decide, by decide, by rfl⟩

end PhabMd
